import Mathlib

/-!
# node-serviced: request authentication, validation and command dispatch

A shallow embedding of `server.go`, `command.go` and the constants of
`config.go`, together with models of the Go standard-library functions the
handlers call (`regexp`, `strings.ToLower`, `unicode/utf8`,
`http.MaxBytesReader`, `encoding/json`'s streaming decoder and its string
encoder).

Go strings are byte sequences, so they are modelled as `List UInt8`.
The calls to `logf` only write to the process's own standard error; they take
no part in the response or in the commands that are run and are left out.
-/

namespace NodeServiced

/-! ## Go strings -/

/-- A Go `string`: an immutable sequence of bytes. -/
abbrev GoString := List UInt8

/-- The bytes (UTF-8) of a string literal of the source. -/
def goStr (s : String) : GoString := s.toList.flatMap String.utf8EncodeChar

/-! ## unicode/utf8 -/

/-- The rune `utf8.RuneError` (U+FFFD). -/
def RuneError : Nat := 0xFFFD

/-- The table `first` of package utf8: information about the first byte of a
UTF-8 sequence (`0xF0` ASCII, `0xF1` invalid, otherwise accept-range index in
the high nibble and size in the low one). -/
def utf8First (b : UInt8) : Nat :=
  if b < 0x80 then 0xF0
  else if b < 0xC2 then 0xF1
  else if b < 0xE0 then 0x02
  else if b = 0xE0 then 0x13
  else if b < 0xED then 0x03
  else if b = 0xED then 0x23
  else if b < 0xF0 then 0x03
  else if b = 0xF0 then 0x34
  else if b < 0xF4 then 0x04
  else if b = 0xF4 then 0x44
  else 0xF1

/-- The table `acceptRanges` of package utf8: the range of valid second bytes. -/
def utf8AcceptRange (i : Nat) : UInt8 × UInt8 :=
  match i with
  | 1 => (0xA0, 0xBF)
  | 2 => (0x80, 0x9F)
  | 3 => (0x90, 0xBF)
  | 4 => (0x80, 0x8F)
  | _ => (0x80, 0xBF)

/-- Whether `b` is a continuation byte (`locb <= b <= hicb`). -/
def utf8IsCont (b : UInt8) : Bool := 0x80 ≤ b && b ≤ 0xBF

/-- Go `utf8.DecodeRune` (and `DecodeRuneInString`): the first rune of `p` and its
width in bytes; `(RuneError, 0)` on empty input, `(RuneError, 1)` on an invalid
encoding. -/
def decodeRune (p : GoString) : Nat × Nat :=
  match p with
  | [] => (RuneError, 0)
  | p0 :: rest =>
    let x := utf8First p0
    if x ≥ 0xF0 then
      (if x = 0xF0 then p0.toNat else RuneError, 1)
    else
      let sz := x % 8
      let accept := utf8AcceptRange (x / 16)
      if rest.length + 1 < sz then (RuneError, 1)
      else
        match rest with
        | [] => (RuneError, 1)
        | b1 :: rest1 =>
          if b1 < accept.1 || accept.2 < b1 then (RuneError, 1)
          else if sz ≤ 2 then ((p0.toNat % 32) * 64 + b1.toNat % 64, 2)
          else
            match rest1 with
            | [] => (RuneError, 1)
            | b2 :: rest2 =>
              if !utf8IsCont b2 then (RuneError, 1)
              else if sz ≤ 3 then
                ((p0.toNat % 16) * 4096 + (b1.toNat % 64) * 64 + b2.toNat % 64, 3)
              else
                match rest2 with
                | [] => (RuneError, 1)
                | b3 :: _ =>
                  if !utf8IsCont b3 then (RuneError, 1)
                  else
                    ((p0.toNat % 8) * 262144 + (b1.toNat % 64) * 4096
                      + (b2.toNat % 64) * 64 + b3.toNat % 64, 4)

/-- Go `utf8.AppendRune(nil, r)`: the UTF-8 encoding of `r`; surrogates and
out-of-range values are encoded as `RuneError`. -/
def encodeRune (r : Nat) : GoString :=
  if r ≤ 0x7F then [r.toUInt8]
  else if r ≤ 0x7FF then [(0xC0 + r / 64).toUInt8, (0x80 + r % 64).toUInt8]
  else if r > 0x10FFFF ∨ (0xD800 ≤ r ∧ r ≤ 0xDFFF) then [0xEF, 0xBF, 0xBD]
  else if r ≤ 0xFFFF then
    [(0xE0 + r / 4096).toUInt8, (0x80 + (r / 64) % 64).toUInt8, (0x80 + r % 64).toUInt8]
  else
    [(0xF0 + r / 262144).toUInt8, (0x80 + (r / 4096) % 64).toUInt8,
     (0x80 + (r / 64) % 64).toUInt8, (0x80 + r % 64).toUInt8]

/-! ## regexp

The program compiles three patterns. `Regexp` is the fragment of the RE2
syntax they are written in. All their literals and classes are ASCII, and an
ASCII byte of a Go string is always a rune of its own, so matching byte by
byte agrees with Go's rune by rune matching, also on invalid UTF-8. -/

/-- Abstract syntax of a pattern. -/
inductive Regexp where
  /-- the empty pattern -/
  | eps : Regexp
  /-- a literal byte -/
  | lit (b : UInt8) : Regexp
  /-- a class of byte ranges, as in `[0-9;]` -/
  | cls (ranges : List (UInt8 × UInt8)) : Regexp
  /-- the assertion `^` without the multi-line flag: the beginning of the text -/
  | bot : Regexp
  /-- the assertion `$` without the multi-line flag: the end of the text -/
  | eot : Regexp
  /-- concatenation -/
  | cat (a b : Regexp) : Regexp
  /-- alternation `a|b`, preferring `a` -/
  | alt (a b : Regexp) : Regexp
  /-- greedy repetition `a*` -/
  | star (a : Regexp) : Regexp

/-- One or more: `a+` is `aa*`. -/
def Regexp.plus (a : Regexp) : Regexp := .cat a (.star a)

/-- The pattern matching exactly the bytes of a literal string. -/
def Regexp.str (bs : GoString) : Regexp := bs.foldr (fun b r => .cat (.lit b) r) .eps

/-- Membership of a byte in a class. -/
def inRanges (ranges : List (UInt8 × UInt8)) (c : UInt8) : Bool :=
  ranges.any (fun r => r.1 ≤ c && c ≤ r.2)

/-- The iteration of a greedy star: from the state `st` (offset, rest of the
text) first try one more round of the body, then stop. A round has to consume
input. The fuel is the length of the remaining text plus one. -/
def starLoop (step : Nat × GoString → List (Nat × GoString)) :
    Nat → Nat × GoString → List (Nat × GoString)
  | 0, st => [st]
  | fuel + 1, st =>
    ((step st).filter (fun st2 => st2.2.length < st.2.length)).flatMap (starLoop step fuel)
      ++ [st]

/-- All the ways `re` matches at offset `pos`, where `s` is the text from
`pos` on: the list of (end offset, rest of the text), in the order of
preference of Go's leftmost-first matching. -/
def Regexp.run : Regexp → Nat → GoString → List (Nat × GoString)
  | .eps, pos, s => [(pos, s)]
  | .lit b, pos, s =>
    match s with
    | [] => []
    | c :: t => if c = b then [(pos + 1, t)] else []
  | .cls ranges, pos, s =>
    match s with
    | [] => []
    | c :: t => if inRanges ranges c then [(pos + 1, t)] else []
  | .bot, pos, s => if pos = 0 then [(pos, s)] else []
  | .eot, pos, s => if s.isEmpty then [(pos, s)] else []
  | .cat a b, pos, s => (a.run pos s).flatMap (fun st => b.run st.1 st.2)
  | .alt a b, pos, s => a.run pos s ++ b.run pos s
  | .star a, pos, s => starLoop (fun st => a.run st.1 st.2) (s.length + 1) (pos, s)

/-- The leftmost match at or after offset `pos` (`s` is the text from `pos`
on): its start and end offsets. -/
def Regexp.find (re : Regexp) : Nat → GoString → Option (Nat × Nat)
  | pos, [] =>
    match re.run pos [] with
    | [] => none
    | st :: _ => some (pos, st.1)
  | pos, c :: t =>
    match re.run pos (c :: t) with
    | [] => re.find (pos + 1) t
    | st :: _ => some (pos, st.1)

/-- Go `re.doExecute`: the leftmost match of `re` in `src` starting the search at
`searchPos`. -/
def Regexp.doExecute (re : Regexp) (src : GoString) (searchPos : Nat) : Option (Nat × Nat) :=
  if searchPos ≤ src.length then re.find searchPos (src.drop searchPos) else none

/-- Go `(*Regexp).MatchString`: whether `s` contains a match of `re`. -/
def Regexp.MatchString (re : Regexp) (s : GoString) : Bool :=
  (re.doExecute s 0).isSome

/-- The loop of `(*Regexp).replaceAll` for a replacement `repl` without `$`
templates. `lastMatchEnd`, `searchPos` and `buf` are the variables of the Go
function. Every round moves `searchPos` forward, so `src.length + 2` rounds
always suffice. -/
def Regexp.replaceAllLoop (re : Regexp) (src repl : GoString) :
    Nat → Nat → Nat → GoString → GoString
  | 0, lastMatchEnd, _, buf => buf ++ src.drop lastMatchEnd
  | fuel + 1, lastMatchEnd, searchPos, buf =>
    if searchPos > src.length then buf ++ src.drop lastMatchEnd
    else
      match re.doExecute src searchPos with
      | none => buf ++ src.drop lastMatchEnd
      | some (a0, a1) =>
        let buf1 := buf ++ (src.drop lastMatchEnd).take (a0 - lastMatchEnd)
        let buf2 := if a1 > lastMatchEnd ∨ a0 = 0 then buf1 ++ repl else buf1
        let width := (decodeRune (src.drop searchPos)).2
        let next :=
          if searchPos + width > a1 then searchPos + width
          else if searchPos + 1 > a1 then searchPos + 1
          else a1
        re.replaceAllLoop src repl fuel a1 next buf2

/-- Go `(*Regexp).ReplaceAllString` for a replacement without `$` templates. -/
def Regexp.ReplaceAllString (re : Regexp) (src repl : GoString) : GoString :=
  re.replaceAllLoop src repl (src.length + 2) 0 0 []

/-! ## command.go -/

/-- The class `[0-9]`. -/
def digitClass : Regexp := .cls [(0x30, 0x39)]

/-- The pattern `\x1b\[[0-9;]*m`. -/
def ansiRegexp : Regexp :=
  .cat (.lit 0x1b) (.cat (.lit 0x5b) (.cat (.star (.cls [(0x30, 0x39), (0x3b, 0x3b)])) (.lit 0x6d)))

/-- The error returned by `cmd.Run()`: an `*exec.ExitError` carrying the exit
code of the process (`-1` when it was killed), or any other error (the program
could not be started, the context expired before the start, ...). -/
inductive RunError where
  | exitError (code : Int) : RunError
  | other : RunError
  deriving DecidableEq, Repr

/-- What running the external program did: the bytes it wrote to standard
error and the error of `cmd.Run()` (`none` for `nil`). -/
structure ProcResult where
  stderr : GoString
  err : Option RunError
  deriving DecidableEq, Repr

/-- One start of an external program: its name and arguments. -/
structure Invocation where
  name : GoString
  args : List GoString
  deriving DecidableEq, Repr

/-- The host: what the external program does for a given command line. -/
abbrev Host := Invocation → ProcResult

/-- Go `runCommand`: run the program and normalise the outcome into
(captured stderr, exit code, error). Standard output is discarded. `started`
is the list of the programs started so far. -/
def runCommand (host : Host) (started : List Invocation) (name : GoString)
    (args : List GoString) : List Invocation × (GoString × Int × Option RunError) :=
  let res := host ⟨name, args⟩
  let started1 := started ++ [⟨name, args⟩]
  match res.err with
  | some e =>
    let exitCode : Int :=
      match e with
      | .exitError code => code
      | .other => 1
    (started1, (res.stderr, exitCode, some e))
  | none => (started1, ([], 0, none))

/-- Go `cleanANSI`: every match of `ansiRegexp` in `s` is replaced by the empty
string, in one pass of `ReplaceAllString`. -/
def cleanANSI (s : GoString) : GoString := ansiRegexp.ReplaceAllString s []

/-! ## config.go -/

/-- Go `maxBodyBytes = int64(1 << 20)`. -/
def maxBodyBytes : Nat := 2 ^ 20

/-- The fields of `config` the request path reads. -/
structure config where
  AppName : GoString
  APIPort : GoString
  APIKey : GoString
  SSLCert : GoString
  SSLKey : GoString
  EnvFile : GoString
  NoTLS : Bool

/-! ## net/http: the size-capped body reader -/

/-- How a body stream ends once its bytes are used up. -/
inductive ReadEnd where
  /-- the error `io.EOF` -/
  | eof : ReadEnd
  /-- the error `*http.MaxBytesError` ("http: request body too large") -/
  | tooLarge : ReadEnd
  deriving DecidableEq, Repr

/-- What a reader hands out: the bytes it delivers, in order, and the error
that follows them. -/
structure BodyStream where
  avail : GoString
  final : ReadEnd

/-- Go `http.MaxBytesReader(w, body, n)`: it delivers the first `n` bytes of the
body; a read beyond them fails with `MaxBytesError` when the body is longer
than `n`, and reports the end of the body otherwise. -/
def MaxBytesReader (body : GoString) (n : Nat) : BodyStream :=
  ⟨body.take n, if body.length > n then .tooLarge else .eof⟩

/-! ## encoding/json: the scanner (scanner.go) -/

/-- The op codes a scanner step returns. -/
inductive ScanOp where
  | scanContinue | scanBeginLiteral | scanBeginObject | scanObjectKey | scanObjectValue
  | scanEndObject | scanBeginArray | scanArrayValue | scanEndArray | scanSkipSpace
  | scanEnd | scanError
  deriving DecidableEq, Repr

/-- The entries of the scanner's parse stack. -/
inductive ParseState where
  | parseObjectKey | parseObjectValue | parseArrayValue
  deriving DecidableEq, Repr

/-- The step functions of the scanner. -/
inductive ScanStep where
  | stateBeginValueOrEmpty | stateBeginValue | stateBeginStringOrEmpty | stateBeginString
  | stateEndValue | stateEndTop | stateInString | stateInStringEsc | stateInStringEscU
  | stateInStringEscU1 | stateInStringEscU12 | stateInStringEscU123
  | stateNeg | state1 | state0 | stateDot | stateDot0 | stateE | stateESign | stateE0
  | stateT | stateTr | stateTru | stateF | stateFa | stateFal | stateFals
  | stateN | stateNu | stateNul | stateError
  deriving DecidableEq, Repr

/-- The JSON scanner: its next step function, the parse stack (innermost
entry first) and whether the top-level value has ended. -/
structure scanner where
  step : ScanStep
  parseState : List ParseState
  endTop : Bool
  deriving DecidableEq, Repr

/-- Go `maxNestingDepth`. -/
def maxNestingDepth : Nat := 10000

/-- Go `scanner.reset`. -/
def scanner.reset : scanner := ⟨.stateBeginValue, [], false⟩

/-- Go `scanner.error`: record the error and stop. -/
def scanner.error (s : scanner) : scanner × ScanOp :=
  ({ s with step := .stateError }, .scanError)

/-- Go `scanner.pushParseState`, after the caller has set the next step. -/
def scanner.pushParseState (s : scanner) (next : ScanStep) (newParseState : ParseState)
    (successState : ScanOp) : scanner × ScanOp :=
  let s1 := { s with step := next, parseState := newParseState :: s.parseState }
  if s1.parseState.length ≤ maxNestingDepth then (s1, successState) else s1.error

/-- Go `scanner.popParseState`. -/
def scanner.popParseState (s : scanner) : scanner :=
  let rest := s.parseState.tail
  if rest.length = 0 then { step := .stateEndTop, parseState := rest, endTop := true }
  else { s with step := .stateEndValue, parseState := rest }

/-- Go `isSpace`. -/
def isSpace (c : UInt8) : Bool := c = 0x20 || c = 0x09 || c = 0x0d || c = 0x0a

/-- Whether `c` is an ASCII decimal digit. -/
def isDigit (c : UInt8) : Bool := 0x30 ≤ c && c ≤ 0x39

/-- Whether `c` is a hexadecimal digit. -/
def isHex (c : UInt8) : Bool :=
  isDigit c || (0x61 ≤ c && c ≤ 0x66) || (0x41 ≤ c && c ≤ 0x46)

/-- Go `stateEndTop`. -/
def stateEndTop (s : scanner) (c : UInt8) : scanner × ScanOp :=
  if !isSpace c then ((s.error).1, .scanEnd) else (s, .scanEnd)

/-- Go `stateEndValue`. -/
def stateEndValue (s : scanner) (c : UInt8) : scanner × ScanOp :=
  match s.parseState with
  | [] => stateEndTop { s with step := .stateEndTop, endTop := true } c
  | ps :: rest =>
    if isSpace c then ({ s with step := .stateEndValue }, .scanSkipSpace)
    else
      match ps with
      | .parseObjectKey =>
        if c = 0x3a then
          ({ s with parseState := .parseObjectValue :: rest, step := .stateBeginValue },
            .scanObjectKey)
        else s.error
      | .parseObjectValue =>
        if c = 0x2c then
          ({ s with parseState := .parseObjectKey :: rest, step := .stateBeginString },
            .scanObjectValue)
        else if c = 0x7d then (s.popParseState, .scanEndObject)
        else s.error
      | .parseArrayValue =>
        if c = 0x2c then ({ s with step := .stateBeginValue }, .scanArrayValue)
        else if c = 0x5d then (s.popParseState, .scanEndArray)
        else s.error

/-- Go `stateBeginValue`. -/
def stateBeginValue (s : scanner) (c : UInt8) : scanner × ScanOp :=
  if isSpace c then (s, .scanSkipSpace)
  else if c = 0x7b then s.pushParseState .stateBeginStringOrEmpty .parseObjectKey .scanBeginObject
  else if c = 0x5b then s.pushParseState .stateBeginValueOrEmpty .parseArrayValue .scanBeginArray
  else if c = 0x22 then ({ s with step := .stateInString }, .scanBeginLiteral)
  else if c = 0x2d then ({ s with step := .stateNeg }, .scanBeginLiteral)
  else if c = 0x30 then ({ s with step := .state0 }, .scanBeginLiteral)
  else if c = 0x74 then ({ s with step := .stateT }, .scanBeginLiteral)
  else if c = 0x66 then ({ s with step := .stateF }, .scanBeginLiteral)
  else if c = 0x6e then ({ s with step := .stateN }, .scanBeginLiteral)
  else if 0x31 ≤ c && c ≤ 0x39 then ({ s with step := .state1 }, .scanBeginLiteral)
  else s.error

/-- Go `stateBeginValueOrEmpty`. -/
def stateBeginValueOrEmpty (s : scanner) (c : UInt8) : scanner × ScanOp :=
  if isSpace c then (s, .scanSkipSpace)
  else if c = 0x5d then stateEndValue s c
  else stateBeginValue s c

/-- Go `stateBeginString`. -/
def stateBeginString (s : scanner) (c : UInt8) : scanner × ScanOp :=
  if isSpace c then (s, .scanSkipSpace)
  else if c = 0x22 then ({ s with step := .stateInString }, .scanBeginLiteral)
  else s.error

/-- Go `stateBeginStringOrEmpty`. -/
def stateBeginStringOrEmpty (s : scanner) (c : UInt8) : scanner × ScanOp :=
  if isSpace c then (s, .scanSkipSpace)
  else if c = 0x7d then
    stateEndValue { s with parseState := .parseObjectValue :: s.parseState.tail } c
  else stateBeginString s c

/-- Go `stateInString`. -/
def stateInString (s : scanner) (c : UInt8) : scanner × ScanOp :=
  if c = 0x22 then ({ s with step := .stateEndValue }, .scanContinue)
  else if c = 0x5c then ({ s with step := .stateInStringEsc }, .scanContinue)
  else if c < 0x20 then s.error
  else (s, .scanContinue)

/-- Go `stateInStringEsc`. -/
def stateInStringEsc (s : scanner) (c : UInt8) : scanner × ScanOp :=
  if c = 0x62 || c = 0x66 || c = 0x6e || c = 0x72 || c = 0x74 || c = 0x5c || c = 0x2f
      || c = 0x22 then
    ({ s with step := .stateInString }, .scanContinue)
  else if c = 0x75 then ({ s with step := .stateInStringEscU }, .scanContinue)
  else s.error

/-- The four states `stateInStringEscU`, `U1`, `U12`, `U123`: a hexadecimal
digit leads to `next`. -/
def stateInStringEscHex (next : ScanStep) (s : scanner) (c : UInt8) : scanner × ScanOp :=
  if isHex c then ({ s with step := next }, .scanContinue) else s.error

/-- Go `state0`. -/
def state0 (s : scanner) (c : UInt8) : scanner × ScanOp :=
  if c = 0x2e then ({ s with step := .stateDot }, .scanContinue)
  else if c = 0x65 || c = 0x45 then ({ s with step := .stateE }, .scanContinue)
  else stateEndValue s c

/-- Go `state1`. -/
def state1 (s : scanner) (c : UInt8) : scanner × ScanOp :=
  if isDigit c then ({ s with step := .state1 }, .scanContinue) else state0 s c

/-- Go `stateNeg`. -/
def stateNeg (s : scanner) (c : UInt8) : scanner × ScanOp :=
  if c = 0x30 then ({ s with step := .state0 }, .scanContinue)
  else if 0x31 ≤ c && c ≤ 0x39 then ({ s with step := .state1 }, .scanContinue)
  else s.error

/-- Go `stateDot`. -/
def stateDot (s : scanner) (c : UInt8) : scanner × ScanOp :=
  if isDigit c then ({ s with step := .stateDot0 }, .scanContinue) else s.error

/-- Go `stateDot0`. -/
def stateDot0 (s : scanner) (c : UInt8) : scanner × ScanOp :=
  if isDigit c then (s, .scanContinue)
  else if c = 0x65 || c = 0x45 then ({ s with step := .stateE }, .scanContinue)
  else stateEndValue s c

/-- Go `stateESign`. -/
def stateESign (s : scanner) (c : UInt8) : scanner × ScanOp :=
  if isDigit c then ({ s with step := .stateE0 }, .scanContinue) else s.error

/-- Go `stateE`. -/
def stateE (s : scanner) (c : UInt8) : scanner × ScanOp :=
  if c = 0x2b || c = 0x2d then ({ s with step := .stateESign }, .scanContinue)
  else stateESign s c

/-- Go `stateE0`. -/
def stateE0 (s : scanner) (c : UInt8) : scanner × ScanOp :=
  if isDigit c then (s, .scanContinue) else stateEndValue s c

/-- The states inside the literals `true`, `false` and `null`: the byte
`want` leads to `next`. -/
def stateLetter (want : UInt8) (next : ScanStep) (s : scanner) (c : UInt8) : scanner × ScanOp :=
  if c = want then ({ s with step := next }, .scanContinue) else s.error

/-- The call `s.step(s, c)`: one byte through the scanner. -/
def scanner.stepByte (s : scanner) (c : UInt8) : scanner × ScanOp :=
  match s.step with
  | .stateBeginValueOrEmpty => stateBeginValueOrEmpty s c
  | .stateBeginValue => stateBeginValue s c
  | .stateBeginStringOrEmpty => stateBeginStringOrEmpty s c
  | .stateBeginString => stateBeginString s c
  | .stateEndValue => stateEndValue s c
  | .stateEndTop => stateEndTop s c
  | .stateInString => stateInString s c
  | .stateInStringEsc => stateInStringEsc s c
  | .stateInStringEscU => stateInStringEscHex .stateInStringEscU1 s c
  | .stateInStringEscU1 => stateInStringEscHex .stateInStringEscU12 s c
  | .stateInStringEscU12 => stateInStringEscHex .stateInStringEscU123 s c
  | .stateInStringEscU123 => stateInStringEscHex .stateInString s c
  | .stateNeg => stateNeg s c
  | .state1 => state1 s c
  | .state0 => state0 s c
  | .stateDot => stateDot s c
  | .stateDot0 => stateDot0 s c
  | .stateE => stateE s c
  | .stateESign => stateESign s c
  | .stateE0 => stateE0 s c
  | .stateT => stateLetter 0x72 .stateTr s c
  | .stateTr => stateLetter 0x75 .stateTru s c
  | .stateTru => stateLetter 0x65 .stateEndValue s c
  | .stateF => stateLetter 0x61 .stateFa s c
  | .stateFa => stateLetter 0x6c .stateFal s c
  | .stateFal => stateLetter 0x73 .stateFals s c
  | .stateFals => stateLetter 0x65 .stateEndValue s c
  | .stateN => stateLetter 0x75 .stateNu s c
  | .stateNu => stateLetter 0x6c .stateNul s c
  | .stateNul => stateLetter 0x6c .stateEndValue s c
  | .stateError => (s, .scanError)

/-! ## encoding/json: the streaming decoder (stream.go) -/

/-- The loop of `Decoder.readValue`: the scanner runs over the bytes the
reader delivers until the first JSON value is complete, and returns the
number of bytes up to its end; `none` is an error (a syntax error, or the
error of the reader when the bytes run out inside the value). Nothing after
the end of the value is looked at. -/
def readValueLoop (final : ReadEnd) : scanner → Nat → GoString → Option Nat
  | s, scanp, [] =>
    match final with
    | .eof => if (s.stepByte 0x20).2 = .scanEnd then some scanp else none
    | .tooLarge => none
  | s, scanp, c :: t =>
    let r := s.stepByte c
    match r.2 with
    | .scanEnd => some scanp
    | .scanError => none
    | .scanEndObject | .scanEndArray =>
      let r2 := stateEndValue r.1 0x20
      if r2.2 = .scanEnd then some (scanp + 1) else readValueLoop final r2.1 (scanp + 1) t
    | _ => readValueLoop final r.1 (scanp + 1) t

/-- Go `Decoder.readValue` on a fresh decoder. -/
def readValue (r : BodyStream) : Option Nat :=
  readValueLoop r.final scanner.reset 0 r.avail

/-! ## encoding/json: storing a value into a struct (decode.go)

Both request types are structs with a single `string` field carrying a
`json:"..."` tag. `unmarshalStruct` is `decodeState.unmarshal` for such a
target: `field` is the tag name, and the result is the final value of the
field (`""` when no member stored into it) or, for `none`, the saved error. -/

/-- Go `getu4`: the rune of a `\uXXXX` escape at the start of `s`, `none` for
Go's `-1`. -/
def getu4 (s : GoString) : Option Nat :=
  match s with
  | 0x5c :: 0x75 :: h1 :: h2 :: h3 :: h4 :: _ =>
    let hexVal (c : UInt8) : Option Nat :=
      if isDigit c then some (c.toNat - 0x30)
      else if 0x61 ≤ c && c ≤ 0x66 then some (c.toNat - 0x61 + 10)
      else if 0x41 ≤ c && c ≤ 0x46 then some (c.toNat - 0x41 + 10)
      else none
    match hexVal h1, hexVal h2, hexVal h3, hexVal h4 with
    | some a, some b, some c, some d => some (((a * 16 + b) * 16 + c) * 16 + d)
    | _, _, _, _ => none
  | _ => none

/-- Go `utf16.IsSurrogate`. -/
def utf16IsSurrogate (r : Nat) : Bool := 0xd800 ≤ r && r < 0xe000

/-- Go `utf16.DecodeRune`: the rune of a surrogate pair, `RuneError` when the
pair is not valid (`r2` is `none` for Go's `-1`). -/
def utf16DecodeRune (r1 : Nat) (r2 : Option Nat) : Nat :=
  match r2 with
  | some r2 =>
    if 0xd800 ≤ r1 ∧ r1 < 0xdc00 ∧ 0xdc00 ≤ r2 ∧ r2 < 0xe000 then
      (r1 - 0xd800) * 1024 + (r2 - 0xdc00) + 0x10000
    else RuneError
  | none => RuneError

/-- The main loop of `unquoteBytes` on the text between the quotes: escapes
are resolved and invalid UTF-8 is coerced to U+FFFD; `none` when the text is
not a valid string body. Every round consumes input, so the length of the
text is enough fuel. -/
def unquoteLoop : Nat → GoString → Option GoString
  | _, [] => some []
  | 0, _ :: _ => none
  | fuel + 1, c :: t =>
    if c = 0x5c then
      match t with
      | [] => none
      | e :: t2 =>
        if e = 0x22 || e = 0x5c || e = 0x2f || e = 0x27 then
          (unquoteLoop fuel t2).map (fun r => e :: r)
        else if e = 0x62 then (unquoteLoop fuel t2).map (fun r => 0x08 :: r)
        else if e = 0x66 then (unquoteLoop fuel t2).map (fun r => 0x0c :: r)
        else if e = 0x6e then (unquoteLoop fuel t2).map (fun r => 0x0a :: r)
        else if e = 0x72 then (unquoteLoop fuel t2).map (fun r => 0x0d :: r)
        else if e = 0x74 then (unquoteLoop fuel t2).map (fun r => 0x09 :: r)
        else if e = 0x75 then
          match getu4 (c :: t) with
          | none => none
          | some rr =>
            let rest := (c :: t).drop 6
            if utf16IsSurrogate rr then
              let dec := utf16DecodeRune rr (getu4 rest)
              if dec ≠ RuneError then
                (unquoteLoop fuel (rest.drop 6)).map (fun r => encodeRune dec ++ r)
              else (unquoteLoop fuel rest).map (fun r => encodeRune RuneError ++ r)
            else (unquoteLoop fuel rest).map (fun r => encodeRune rr ++ r)
        else none
    else if c = 0x22 || c < 0x20 then none
    else if c < 0x80 then (unquoteLoop fuel t).map (fun r => c :: r)
    else
      let d := decodeRune (c :: t)
      (unquoteLoop fuel ((c :: t).drop d.2)).map (fun r => encodeRune d.1 ++ r)

/-- Go `unquoteBytes`: the string denoted by a quoted JSON string literal. -/
def unquoteBytes (s : GoString) : Option GoString :=
  if s.length < 2 || s.head? ≠ some 0x22 || s.getLast? ≠ some 0x22 then none
  else
    let body := (s.drop 1).take (s.length - 2)
    unquoteLoop body.length body

/-- Go `foldName`: the folded form of a member name, such that two names have
the same folded form exactly when they are equal under simple Unicode case
folding. ASCII letters are put in upper case. Of the runes outside ASCII only
U+017F and U+212A fold to ASCII letters (`S` and `K`); each other one is
replaced in Go by the least rune of its folding orbit, again a rune outside
ASCII, for which the rune itself stands here: the tag names of this program
are ASCII, so a comparison with their folded form cannot tell the two
apart. -/
def foldName : GoString → GoString
  | [] => []
  | 0xc5 :: 0xbf :: t => 0x53 :: foldName t
  | 0xe2 :: 0x84 :: 0xaa :: t => 0x4b :: foldName t
  | c :: t => (if 0x61 ≤ c && c ≤ 0x7a then c - 0x20 else c) :: foldName t

/-- The lookup of a member name among the fields of the struct:
`byExactName`, then `byFoldedName`. -/
def fieldMatches (field key : GoString) : Bool :=
  key = field || foldName key = foldName field

/-- The text `s` without leading JSON white space. -/
def trimSpaceLeft : GoString → GoString
  | [] => []
  | c :: t => if isSpace c then trimSpaceLeft t else c :: t

/-- The text `s` without leading and trailing JSON white space. -/
def trimSpace (s : GoString) : GoString :=
  (trimSpaceLeft (trimSpaceLeft s).reverse).reverse

/-- The state of the walk over the members of the top-level object: the
scanner, the text of the key of the member being read (once its colon has
been seen), the text read since the last delimiter, and the members
completed so far as (key text, value text). -/
structure MemberWalk where
  scan : scanner
  key : Option GoString
  cur : GoString
  members : List (GoString × GoString)

/-- One byte of the walk: the scanner's op codes at nesting depth one (`:`
after a key, `,` after a value, the closing brace) delimit the members; every
other byte belongs to the text of the key or value being read. -/
def MemberWalk.stepByte (m : MemberWalk) (c : UInt8) : MemberWalk :=
  let depth := m.scan.parseState.length
  let r := m.scan.stepByte c
  let keep : MemberWalk := { m with scan := r.1, cur := m.cur ++ [c] }
  match r.2 with
  | .scanBeginObject =>
    if depth = 0 then { m with scan := r.1, cur := [] } else keep
  | .scanObjectKey =>
    if depth = 1 then { m with scan := r.1, key := some m.cur, cur := [] } else keep
  | .scanObjectValue | .scanEndObject =>
    if depth = 1 then
      match m.key with
      | some k => { scan := r.1, key := none, cur := [], members := m.members ++ [(k, m.cur)] }
      | none => { m with scan := r.1, cur := [] }
    else keep
  | _ => keep

/-- The members of the top-level object `data`, in order, as (key text, value
text). -/
def objectMembers (data : GoString) : List (GoString × GoString) :=
  (data.foldl MemberWalk.stepByte ⟨scanner.reset, none, [], []⟩).members

/-- The decoding state of `decodeState.object` for the struct: the value of
its field and whether an error has been saved. -/
structure FieldState where
  value : GoString
  savedError : Bool

/-- The body of the loop of `decodeState.object` for one member: the key is
unquoted and looked up; the value of an unknown member is skipped; a string
is stored into the field, `null` leaves it as it is, and every other value
(number, boolean, array, object) saves an `UnmarshalTypeError` and decoding
goes on. -/
def storeMember (field : GoString) (st : FieldState) (member : GoString × GoString) :
    FieldState :=
  match unquoteBytes (trimSpace member.1) with
  | none => { st with savedError := true }
  | some key =>
    if fieldMatches field key then
      let item := trimSpace member.2
      match item with
      | 0x22 :: _ =>
        match unquoteBytes item with
        | some v => { st with value := v }
        | none => { st with savedError := true }
      | 0x6e :: _ => st
      | _ => { st with savedError := true }
    else st

/-- Go `decodeState.unmarshal` of the complete JSON value `data` into a pointer
to the zero struct: an object is walked member by member, the literal `null`
changes nothing, and any other value is an `UnmarshalTypeError`. -/
def unmarshalStruct (field : GoString) (data : GoString) : Option GoString :=
  match trimSpaceLeft data with
  | 0x7b :: _ =>
    let st := (objectMembers data).foldl (storeMember field) ⟨[], false⟩
    if st.savedError then none else some st.value
  | 0x6e :: _ => some []
  | _ => none

/-- Go `json.NewDecoder(r).Decode(&payload)` on a fresh decoder: `readValue`
delimits the first JSON value of the stream, then it is stored into the
struct. `none` stands for a non-nil error. -/
def Decode (field : GoString) (r : BodyStream) : Option GoString :=
  match readValue r with
  | none => none
  | some n => unmarshalStruct field (r.avail.take n)

/-! ## encoding/json: writing a string (encode.go)

The responses are written with `json.NewEncoder(w).Encode(body)`. The encoder
escapes quotes, backslashes, control characters, `<`, `>`, `&`, U+2028 and
U+2029; a reader of the JSON text undoes each of these escapes. What a reader
does not get back is a byte that is not part of a valid UTF-8 sequence: for
each such byte the encoder writes the escape of U+FFFD. -/

/-- The loop of `appendString` of the encoder, as the string a JSON reader
gets back: an ASCII byte and the bytes of a validly encoded rune come back as
they are, and a byte for which `utf8.DecodeRuneInString` returns
`(RuneError, 1)` comes back as U+FFFD. Go hands the decoder at most
`utf8.UTFMax` (4) bytes, which is all it ever reads, so `decodeRune` is
applied to the whole rest. The first argument is the number of bytes of the
current rune still to be copied (Go advances `i` by the width of the rune). -/
def encodedTextFrom : Nat → GoString → GoString
  | _, [] => []
  | k + 1, c :: t => c :: encodedTextFrom k t
  | 0, c :: t =>
    if c < 0x80 then c :: encodedTextFrom 0 t
    else
      let d := decodeRune (c :: t)
      if d.1 = RuneError ∧ d.2 = 1 then 0xef :: 0xbf :: 0xbd :: encodedTextFrom 0 t
      else c :: encodedTextFrom (d.2 - 1) t

/-- The string a reader of the response finds for the Go string `s` written by
the encoder. -/
def encodedText (s : GoString) : GoString := encodedTextFrom 0 s

/-- Go `json.NewEncoder(w).Encode(body)` for a `map[string]string`, as the JSON
object a reader of the response finds: every key and value as the encoder
writes it. The maps of this program have a single entry, so the order of the
keys plays no part. -/
def encodeObject (body : List (GoString × GoString)) : List (GoString × GoString) :=
  body.map (fun kv => (encodedText kv.1, encodedText kv.2))

/-! ## strings -/

/-- Go `strings.ToLower`. A string of ASCII bytes is lower-cased byte by byte.
Otherwise Go returns `strings.Map(unicode.ToLower, s)`, which depends on the
Unicode case tables; these are not part of the program and `unicodeLower`
stands for that function. -/
def ToLower (unicodeLower : GoString → GoString) (s : GoString) : GoString :=
  if s.all (fun c => c < 0x80) then
    s.map (fun c => if 0x41 ≤ c && c ≤ 0x5a then c + 0x20 else c)
  else unicodeLower s

/-! ## server.go -/

/-- The pattern `^v[0-9]+\.[0-9]+\.[0-9]+$`. -/
def coreVersionRegexp : Regexp :=
  .cat .bot (.cat (.lit 0x76) (.cat digitClass.plus (.cat (.lit 0x2e) (.cat digitClass.plus
    (.cat (.lit 0x2e) (.cat digitClass.plus .eot))))))

/-- The pattern `^(iran|russia|china)$`. -/
def geofileRegionRegexp : Regexp :=
  .cat .bot (.cat (.alt (.str (goStr "iran")) (.alt (.str (goStr "russia")) (.str (goStr "china"))))
    .eot)

/-- Go `type server struct`. -/
structure server where
  cfg : config

/-- Go `type coreUpdateRequest struct`. -/
structure coreUpdateRequest where
  CoreVersion : GoString
  deriving DecidableEq, Repr

/-- Go `coreUpdateRequest.validate`: `.ok ()` for `nil`, otherwise the message of
the error. -/
def coreUpdateRequest.validate (r : coreUpdateRequest) : Except GoString Unit :=
  if r.CoreVersion = [] then .error (goStr "core_version is required")
  else if !coreVersionRegexp.MatchString r.CoreVersion then
    .error (goStr "core_version must match pattern vX.X.X")
  else .ok ()

/-- Go `type geofilesRequest struct`. -/
structure geofilesRequest where
  Region : GoString
  deriving DecidableEq, Repr

/-- Go `geofilesRequest.validate`: the lower-cased region, or the message of the
error. -/
def geofilesRequest.validate (unicodeLower : GoString → GoString) (r : geofilesRequest) :
    Except GoString GoString :=
  if r.Region = [] then .error (goStr "region is required (iran, russia, china)")
  else
    let region := ToLower unicodeLower r.Region
    if !geofileRegionRegexp.MatchString region then
      .error (goStr "Unsupported region " ++ r.Region)
    else .ok region

/-- The header of a request: the values stored under a canonical header
name. -/
abbrev Header := GoString → List GoString

/-- Go `Header.Get` for the canonical form `key` of the name asked for: the
first value, or `""`. -/
def Header.Get (h : Header) (key : GoString) : GoString :=
  match h key with
  | [] => []
  | v :: _ => v

/-- The parts of `*http.Request` the handlers read. -/
structure Request where
  Header : Header
  Body : GoString

/-- A response as `server.respond` sends it: the status code and the JSON
object of the body, as a reader of the response finds it. -/
structure Response where
  code : Nat
  body : List (GoString × GoString)
  deriving DecidableEq, Repr

/-- What a handler has done so far: the responses written to the
`http.ResponseWriter` and the external programs started. -/
structure Exchange where
  written : List Response
  started : List Invocation
  deriving DecidableEq, Repr

/-- The exchange at the start of a request. -/
def Exchange.new : Exchange := ⟨[], []⟩

/-- What the handlers depend on outside the program: the host that runs the
external program and the Unicode lower-casing of `strings.ToLower`. -/
structure Platform where
  host : Host
  unicodeLower : GoString → GoString

/-- Go `http.StatusOK`. -/
def StatusOK : Nat := 200
/-- Go `http.StatusBadRequest`. -/
def StatusBadRequest : Nat := 400
/-- Go `http.StatusUnauthorized`. -/
def StatusUnauthorized : Nat := 401
/-- Go `http.StatusNotFound`. -/
def StatusNotFound : Nat := 404
/-- Go `http.StatusInternalServerError`. -/
def StatusInternalServerError : Nat := 500

/-- Go `server.respond`: the status code is written, then the body is encoded
as a JSON object. The header `Content-Type: application/json`, the same for
every response, is not recorded. -/
def server.respond (_s : server) (w : Exchange) (code : Nat) (body : List (GoString × GoString)) :
    Exchange :=
  { w with written := w.written ++ [⟨code, encodeObject body⟩] }

/-- Go `server.authenticate`. `Header.Get("x-api-key")` reads the canonical name
`X-Api-Key`. -/
def server.authenticate (s : server) (w : Exchange) (r : Request) : Exchange × Bool :=
  let key := r.Header.Get (goStr "X-Api-Key")
  if key = [] then
    (s.respond w StatusUnauthorized [(goStr "detail", goStr "missing api key")], false)
  else if key ≠ s.cfg.APIKey then
    (s.respond w StatusUnauthorized [(goStr "detail", goStr "invalid api key")], false)
  else (w, true)

/-- Go `server.handleRoot`. -/
def server.handleRoot (s : server) (_p : Platform) (w : Exchange) (r : Request) : Exchange :=
  let a := s.authenticate w r
  if !a.2 then a.1
  else s.respond a.1 StatusOK [(goStr "status", goStr "ok")]

/-- Go `server.handleUpdate`. -/
def server.handleUpdate (s : server) (p : Platform) (w : Exchange) (r : Request) : Exchange :=
  let a := s.authenticate w r
  if !a.2 then a.1
  else
    let w1 := a.1
    let res := runCommand p.host w1.started s.cfg.AppName
      [goStr "update", goStr "--no-update-service"]
    let w2 := { w1 with started := res.1 }
    if res.2.2.2.isSome then
      s.respond w2 StatusInternalServerError [(goStr "detail", goStr "update failed on server")]
    else s.respond w2 StatusOK [(goStr "detail", goStr "node updated successfully")]

/-- Go `server.handleCoreUpdate`. -/
def server.handleCoreUpdate (s : server) (p : Platform) (w : Exchange) (r : Request) : Exchange :=
  let a := s.authenticate w r
  if !a.2 then a.1
  else
    let w1 := a.1
    let body := MaxBytesReader r.Body maxBodyBytes
    match Decode (goStr "core_version") body with
    | none => s.respond w1 StatusBadRequest [(goStr "detail", goStr "Invalid JSON body")]
    | some v =>
      let payload : coreUpdateRequest := ⟨v⟩
      match payload.validate with
      | .error e => s.respond w1 StatusBadRequest [(goStr "detail", e)]
      | .ok _ =>
        let args := [goStr "core-update", goStr "--version", payload.CoreVersion]
        let res := runCommand p.host w1.started s.cfg.AppName args
        let w2 := { w1 with started := res.1 }
        let stderr := res.2.1
        if res.2.2.2.isSome then
          let cleanErr := cleanANSI stderr
          if cleanErr ≠ [] then
            s.respond w2 StatusNotFound [(goStr "detail",
              goStr "core-update failed for version " ++ payload.CoreVersion ++ goStr ": "
                ++ cleanErr)]
          else
            s.respond w2 StatusNotFound [(goStr "detail",
              goStr "core-update failed for version " ++ payload.CoreVersion
                ++ goStr ". Version may not exist or network error occurred.")]
        else s.respond w2 StatusOK [(goStr "detail", goStr "node core updated successfully")]

/-- Go `server.handleGeofiles`. -/
def server.handleGeofiles (s : server) (p : Platform) (w : Exchange) (r : Request) : Exchange :=
  let a := s.authenticate w r
  if !a.2 then a.1
  else
    let w1 := a.1
    let body := MaxBytesReader r.Body maxBodyBytes
    match Decode (goStr "region") body with
    | none => s.respond w1 StatusBadRequest [(goStr "detail", goStr "Invalid JSON body")]
    | some v =>
      let payload : geofilesRequest := ⟨v⟩
      match payload.validate p.unicodeLower with
      | .error e => s.respond w1 StatusBadRequest [(goStr "detail", e)]
      | .ok region =>
        let flag := goStr "--" ++ region
        let res := runCommand p.host w1.started s.cfg.AppName [goStr "geofiles", flag]
        let w2 := { w1 with started := res.1 }
        if res.2.2.2.isSome then
          s.respond w2 StatusInternalServerError
            [(goStr "detail", goStr "geofiles update failed on server")]
        else s.respond w2 StatusOK [(goStr "detail", goStr "geofiles updated successfully")]

/-- The four routes registered in `main`. -/
inductive Route where
  /-- the route `GET /` -/
  | root : Route
  /-- the route `POST /node/update` -/
  | update : Route
  /-- the route `POST /node/core_update` -/
  | coreUpdate : Route
  /-- the route `POST /node/geofiles` -/
  | geofiles : Route
  deriving DecidableEq, Repr

/-- The handler `main` registers for a route, run on a fresh exchange. -/
def server.serve (s : server) (p : Platform) (route : Route) (r : Request) : Exchange :=
  match route with
  | .root => s.handleRoot p Exchange.new r
  | .update => s.handleUpdate p Exchange.new r
  | .coreUpdate => s.handleCoreUpdate p Exchange.new r
  | .geofiles => s.handleGeofiles p Exchange.new r

/-! ## Notions used to state the properties -/

/-- A byte that may stand between `ESC [` and `m`: a decimal digit or `;`. -/
def isParam (c : UInt8) : Bool := isDigit c || c = 0x3b

/-- A CSI colour/style sequence: `ESC`, `[`, any number of digits and `;`,
then `m`. -/
def IsCSI (m : GoString) : Prop :=
  ∃ ps : GoString, (∀ x ∈ ps, isParam x = true) ∧ m = 0x1b :: 0x5b :: (ps ++ [0x6d])

/-- The text `s` has a CSI sequence as a substring. -/
def ContainsCSI (s : GoString) : Prop :=
  ∃ pre m post : GoString, IsCSI m ∧ s = pre ++ (m ++ post)

/-- Every `ESC` byte of `s` is the first byte of a CSI sequence of `s`. -/
def EscClosed (s : GoString) : Prop :=
  ∀ pre post : GoString, s = pre ++ 0x1b :: post →
    ∃ m rest : GoString, IsCSI m ∧ 0x1b :: post = m ++ rest

/-- The length of the parameters and final `m` of a CSI sequence at the start
of `s`, if there is one. -/
def csiTail : GoString → Option Nat
  | [] => none
  | c :: t =>
    if isParam c then (csiTail t).map (fun n => n + 1)
    else if c = 0x6d then some 1
    else none

/-- The length of the CSI sequence at the start of `s`, if there is one. -/
def csiLen : GoString → Option Nat
  | c :: d :: t => if c = 0x1b ∧ d = 0x5b then (csiTail t).map (fun n => n + 2) else none
  | _ => none

/-- The text read from the left with its CSI sequences left out; the first
argument is the number of bytes of the current sequence still to be
dropped. -/
def stripFrom : Nat → GoString → GoString
  | _, [] => []
  | k + 1, _ :: t => stripFrom k t
  | 0, c :: t =>
    match csiLen (c :: t) with
    | some n => stripFrom (n - 1) t
    | none => c :: stripFrom 0 t

/-- The relation "`out` is `s` with its CSI sequences deleted": reading `s`
from the left, a CSI sequence at the current position is dropped, and a byte
at which no CSI sequence starts is kept. -/
inductive Stripped : GoString → GoString → Prop where
  | done : Stripped [] []
  | drop (m rest out : GoString) : IsCSI m → Stripped rest out → Stripped (m ++ rest) out
  | keep (c : UInt8) (t out : GoString) :
      (¬ ∃ m rest : GoString, IsCSI m ∧ c :: t = m ++ rest) → Stripped t out →
      Stripped (c :: t) (c :: out)

/-- The text `x` is the text `y` with CSI sequences inserted: each step either
copies the next byte of `y` or puts a CSI sequence in front of what follows. -/
inductive WithInserted : GoString → GoString → Prop where
  | done : WithInserted [] []
  | byte (c : UInt8) (x y : GoString) : WithInserted x y → WithInserted (c :: x) (c :: y)
  | seq (m x y : GoString) : IsCSI m → WithInserted x y → WithInserted (m ++ x) y

/-- The text `s` contains a split CSI sequence: a CSI sequence `o ++ y` cut
into a non-empty beginning `o` and a non-empty end `y`, where in `s` the
beginning `o` is directly followed by another CSI sequence `m`, and after it
comes the end `y`, possibly with further CSI sequences inserted. -/
def ContainsSplitCSI (s : GoString) : Prop :=
  ∃ pre o m x y post : GoString, o ≠ [] ∧ y ≠ [] ∧ IsCSI (o ++ y) ∧ IsCSI m ∧
    WithInserted x y ∧ s = pre ++ (o ++ (m ++ (x ++ post)))

/-- An unterminated opener: the byte `ESC` alone, or `ESC`, `[` and any number
of digits and `;`. -/
def IsOpener (o : GoString) : Prop :=
  o = [0x1b] ∨ ∃ ps : GoString, (∀ x ∈ ps, isParam x = true) ∧ o = 0x1b :: 0x5b :: ps

/-- The text `s` has an unterminated opener that is directly followed by an
`ESC` byte. -/
def OpenerBeforeEsc (s : GoString) : Prop :=
  ∃ pre o post : GoString, IsOpener o ∧ s = pre ++ (o ++ 0x1b :: post)

/-- Whether `s` starts with digits and `;` (possibly none) followed by
`ESC`. -/
def paramsThenEsc : GoString → Bool
  | [] => false
  | c :: t => c = 0x1b || (isParam c && paramsThenEsc t)

/-- Whether an unterminated opener directly followed by `ESC` starts at the
first byte of `s`. -/
def openerThenEsc : GoString → Bool
  | c :: d :: t => c = 0x1b && (d = 0x1b || (d = 0x5b && paramsThenEsc t))
  | _ => false

/-- The decidable form of `OpenerBeforeEsc`. -/
def openerBeforeEscB : GoString → Bool
  | [] => false
  | c :: t => openerThenEsc (c :: t) || openerBeforeEscB t

/-- The results of a greedy star of the class `rs` at offset `pos` of the text
`s`, the longest run first. -/
def classRuns (rs : List (UInt8 × UInt8)) : Nat → GoString → List (Nat × GoString)
  | pos, [] => [(pos, [])]
  | pos, c :: t =>
    if inRanges rs c then classRuns rs (pos + 1) t ++ [(pos, c :: t)] else [(pos, c :: t)]

/-- The shape `v<digits>.<digits>.<digits>`: the byte `v`, then three
non-empty groups of ASCII decimal digits separated by single dots. -/
def IsCoreVersion (s : GoString) : Prop :=
  ∃ a b c : GoString, a ≠ [] ∧ b ≠ [] ∧ c ≠ [] ∧
    (∀ x ∈ a, isDigit x = true) ∧ (∀ x ∈ b, isDigit x = true) ∧ (∀ x ∈ c, isDigit x = true) ∧
    s = 0x76 :: (a ++ 0x2e :: (b ++ 0x2e :: c))

/-- The three supported regions. -/
def regions : List GoString := [goStr "iran", goStr "russia", goStr "china"]

/-- A request presents the configured API key. -/
def Authenticated (s : server) (r : Request) : Prop :=
  r.Header.Get (goStr "X-Api-Key") ≠ [] ∧ r.Header.Get (goStr "X-Api-Key") = s.cfg.APIKey

/-- A configuration with API key `secret` and the default application name. -/
def exampleConfig : config :=
  ⟨goStr "pg-node", goStr "3000", goStr "secret", goStr "cert.pem", goStr "key.pem",
    goStr "/opt/pg-node/.env", false⟩

/-- The server with `exampleConfig`. -/
def exampleServer : server := ⟨exampleConfig⟩

/-- A header whose only entry is `x-api-key: k`. -/
def headerWith (k : GoString) : Header := fun name => if name = goStr "X-Api-Key" then [k] else []

/-- A header without entries. -/
def headerEmpty : Header := fun _ => []

/-- A platform on which every run of the external program ends as `res`. -/
def platformReturning (res : ProcResult) : Platform := ⟨fun _ => res, fun s => s⟩

/-- The decidable form of `EscClosed`: at every `ESC` byte of `s` a CSI
sequence starts. -/
def escClosedB : GoString → Bool
  | [] => true
  | c :: t => (c ≠ 0x1b || (csiLen (c :: t)).isSome) && escClosedB t

/-- A body longer than 1 MiB: a complete, valid core-update object followed by
1 MiB of padding. -/
def oversizedBody : GoString :=
  goStr "\x7b\"core_version\":\"v1.2.3\"\x7d" ++ List.replicate 1048576 0x20

/-- A body longer than 1 MiB: a complete, valid geofiles object followed by
1 MiB of bytes that are not JSON. -/
def oversizedGarbageBody : GoString :=
  goStr "\x7b\"region\":\"iran\"\x7d" ++ List.replicate 1048576 0x41

/-- A body longer than 1 MiB that is white space only. -/
def blankBody : GoString := List.replicate 1048577 0x20

/-- A text from which one pass of `cleanANSI` leaves a CSI sequence: the
bytes `ESC [ ESC [ m m`. -/
def nestedCSI : GoString := goStr "\x1b[\x1b[mm"

/-- A standard error text with a byte that is not part of a valid UTF-8
encoding: `bad `, the byte `0xff`, ` byte`. -/
def invalidUTF8Text : GoString := goStr "bad " ++ 0xff :: goStr " byte"

/-- A standard error text that clears the line (`ESC [ 2 K`, not a
colour/style sequence) and ends in a lone `ESC`. -/
def clearLineText : GoString := goStr "\x1b[2Kdownload failed\x1b"

/-! ## Regular expression matching -/

theorem isParam_eq_inRanges (c : UInt8) :
    inRanges [(0x30, 0x39), (0x3b, 0x3b)] c = isParam c := by
  simp only [inRanges, isParam, isDigit, List.any_cons, List.any_nil, Bool.or_false]
  by_cases h : c = 0x3b
  · subst h; decide
  · have h1 : ¬ ((0x3b : UInt8) ≤ c ∧ c ≤ 0x3b) := by
      rintro ⟨h2, h3⟩
      exact h (UInt8.le_antisymm h3 h2)
    simp [h, h1]

theorem isDigit_eq_inRanges (c : UInt8) : inRanges [(0x30, 0x39)] c = isDigit c := by
  simp [inRanges, isDigit]

theorem starLoop_cls (rs : List (UInt8 × UInt8)) :
    ∀ (s : GoString) (fuel pos : Nat), s.length < fuel →
      starLoop (fun st => (Regexp.cls rs).run st.1 st.2) fuel (pos, s) = classRuns rs pos s := by
  intro s
  induction s with
  | nil =>
    intro fuel pos h
    cases fuel with
    | zero => simp at h
    | succ f => simp [starLoop, Regexp.run, classRuns]
  | cons c t ih =>
    intro fuel pos h
    cases fuel with
    | zero => simp at h
    | succ f =>
      have ht : t.length < f := by simpa using h
      have ih1 := ih f (pos + 1) ht
      simp only [Regexp.run] at ih1
      by_cases hc : inRanges rs c = true
      · simp [starLoop, Regexp.run, classRuns, hc, ih1]
      · simp [starLoop, Regexp.run, classRuns, hc]

theorem run_star_cls (rs : List (UInt8 × UInt8)) (pos : Nat) (s : GoString) :
    (Regexp.star (.cls rs)).run pos s = classRuns rs pos s := by
  simp only [Regexp.run]
  exact starLoop_cls rs s (s.length + 1) pos (Nat.lt_succ_self _)

theorem mem_classRuns (rs : List (UInt8 × UInt8)) :
    ∀ (s : GoString) (pos e : Nat) (rest : GoString),
      (e, rest) ∈ classRuns rs pos s ↔
        ∃ a : GoString, (∀ x ∈ a, inRanges rs x = true) ∧ s = a ++ rest ∧ e = pos + a.length := by
  intro s
  induction s with
  | nil =>
    intro pos e rest
    simp only [classRuns, List.mem_singleton, Prod.mk.injEq]
    constructor
    · rintro ⟨rfl, rfl⟩
      exact ⟨[], by simp, by simp, by simp⟩
    · rintro ⟨a, _, h2, h3⟩
      have h4 : a = [] ∧ rest = [] := by simpa using h2.symm
      obtain ⟨rfl, rfl⟩ := h4
      simp [h3]
  | cons c t ih =>
    intro pos e rest
    by_cases hc : inRanges rs c = true
    · rw [classRuns, if_pos hc]
      simp only [List.mem_append, List.mem_singleton, Prod.mk.injEq, ih]
      constructor
      · rintro (⟨a, ha, hs, he⟩ | ⟨rfl, rfl⟩)
        · refine ⟨c :: a, ?_, by simp [hs], by simp [he]; omega⟩
          intro x hx
          rcases List.mem_cons.1 hx with rfl | hx
          · exact hc
          · exact ha x hx
        · exact ⟨[], by simp, by simp, by simp⟩
      · rintro ⟨a, ha, hs, he⟩
        cases a with
        | nil => right; simp at hs; simp [hs, he]
        | cons x a =>
          left
          simp only [List.cons_append, List.cons.injEq] at hs
          refine ⟨a, fun y hy => ha y (List.mem_cons_of_mem _ hy), hs.2, ?_⟩
          simp [he]; omega
    · rw [classRuns, if_neg hc]
      simp only [List.mem_singleton, Prod.mk.injEq]
      constructor
      · rintro ⟨rfl, rfl⟩
        exact ⟨[], by simp, by simp, by simp⟩
      · rintro ⟨a, ha, hs, he⟩
        cases a with
        | nil => simp at hs; simp [hs, he]
        | cons x a =>
          simp only [List.cons_append, List.cons.injEq] at hs
          exact absurd (ha x (List.mem_cons_self _ _)) (by rw [← hs.1]; exact hc)

theorem mem_run_lit (b : UInt8) (pos : Nat) (s : GoString) (e : Nat) (rest : GoString) :
    (e, rest) ∈ (Regexp.lit b).run pos s ↔ s = b :: rest ∧ e = pos + 1 := by
  cases s with
  | nil => simp [Regexp.run]
  | cons c t =>
    by_cases hc : c = b
    · simp only [Regexp.run, hc, if_true, List.mem_singleton, Prod.mk.injEq, List.cons.injEq,
        true_and]
      constructor
      · rintro ⟨h1, h2⟩; exact ⟨h2.symm, h1⟩
      · rintro ⟨h1, h2⟩; exact ⟨h2, h1.symm⟩
    · simp only [Regexp.run, hc, if_false, List.not_mem_nil, List.cons.injEq, false_and]

theorem mem_run_cat (a b : Regexp) (pos : Nat) (s : GoString) (x : Nat × GoString) :
    x ∈ (Regexp.cat a b).run pos s ↔ ∃ y, y ∈ a.run pos s ∧ x ∈ b.run y.1 y.2 := by
  simp [Regexp.run]

theorem mem_run_alt (a b : Regexp) (pos : Nat) (s : GoString) (x : Nat × GoString) :
    x ∈ (Regexp.alt a b).run pos s ↔ x ∈ a.run pos s ∨ x ∈ b.run pos s := by
  simp [Regexp.run]

theorem mem_run_eot (pos : Nat) (s : GoString) (e : Nat) (rest : GoString) :
    (e, rest) ∈ Regexp.eot.run pos s ↔ s = [] ∧ rest = [] ∧ e = pos := by
  cases s with
  | nil =>
    simp only [Regexp.run, List.isEmpty_nil, if_true, List.mem_singleton, Prod.mk.injEq, true_and]
    exact And.comm
  | cons c t => simp [Regexp.run]

theorem mem_run_cls (rs : List (UInt8 × UInt8)) (pos : Nat) (s : GoString) (e : Nat)
    (rest : GoString) :
    (e, rest) ∈ (Regexp.cls rs).run pos s ↔
      ∃ c, inRanges rs c = true ∧ s = c :: rest ∧ e = pos + 1 := by
  cases s with
  | nil => simp [Regexp.run]
  | cons c t =>
    by_cases hc : inRanges rs c = true
    · simp only [Regexp.run, hc, if_true, List.mem_singleton, Prod.mk.injEq, List.cons.injEq]
      constructor
      · rintro ⟨h1, h2⟩; exact ⟨c, hc, ⟨rfl, h2.symm⟩, h1⟩
      · rintro ⟨c2, _, ⟨_, h2⟩, h3⟩; exact ⟨h3, h2.symm⟩
    · have hc2 : inRanges rs c = false := by simpa using hc
      simp only [Regexp.run, hc2, Bool.false_eq_true, if_false, List.not_mem_nil,
        List.cons.injEq, false_iff, not_exists, not_and]
      rintro c2 h2 ⟨h3, _⟩
      rw [← h3] at h2
      exact absurd h2 hc

theorem mem_run_plus_cls (rs : List (UInt8 × UInt8)) (pos : Nat) (s : GoString) (e : Nat)
    (rest : GoString) :
    (e, rest) ∈ (Regexp.plus (.cls rs)).run pos s ↔
      ∃ a : GoString, a ≠ [] ∧ (∀ x ∈ a, inRanges rs x = true) ∧ s = a ++ rest ∧
        e = pos + a.length := by
  rw [Regexp.plus, mem_run_cat]
  constructor
  · rintro ⟨⟨e1, r1⟩, h1, h2⟩
    rw [mem_run_cls] at h1
    obtain ⟨c, hc, hs, he⟩ := h1
    rw [run_star_cls, mem_classRuns] at h2
    obtain ⟨a, ha, hr, he2⟩ := h2
    refine ⟨c :: a, by simp, ?_, ?_, ?_⟩
    · intro x hx
      rcases List.mem_cons.1 hx with rfl | hx
      · exact hc
      · exact ha x hx
    · simp only at hr
      simp [hs, hr]
    · simp only at he2
      simp [he2, he]; omega
  · rintro ⟨a, hne, ha, hs, he⟩
    cases a with
    | nil => exact absurd rfl hne
    | cons c a =>
      refine ⟨(pos + 1, a ++ rest), ?_, ?_⟩
      · rw [mem_run_cls]
        exact ⟨c, ha c (List.mem_cons_self _ _), by simpa using hs, rfl⟩
      · rw [run_star_cls, mem_classRuns]
        refine ⟨a, fun x hx => ha x (List.mem_cons_of_mem _ hx), rfl, ?_⟩
        simp [he]; omega

theorem mem_run_str (bs : GoString) :
    ∀ (pos : Nat) (s : GoString) (e : Nat) (rest : GoString),
      (e, rest) ∈ (Regexp.str bs).run pos s ↔ s = bs ++ rest ∧ e = pos + bs.length := by
  induction bs with
  | nil =>
    intro pos s e rest
    simp only [Regexp.str, List.foldr_nil, Regexp.run, List.mem_singleton, Prod.mk.injEq,
      List.nil_append, List.length_nil, Nat.add_zero]
    constructor
    · rintro ⟨h1, h2⟩; exact ⟨h2.symm, h1⟩
    · rintro ⟨h1, h2⟩; exact ⟨h2, h1.symm⟩
  | cons b bs ih =>
    intro pos s e rest
    have hstr : Regexp.str (b :: bs) = .cat (.lit b) (Regexp.str bs) := rfl
    rw [hstr, mem_run_cat]
    constructor
    · rintro ⟨⟨e1, r1⟩, h1, h2⟩
      rw [mem_run_lit] at h1
      rw [ih] at h2
      simp only at h2
      refine ⟨by simp [h1.1, h2.1], ?_⟩
      simp [h2.2, h1.2]; omega
    · rintro ⟨hs, he⟩
      refine ⟨(pos + 1, bs ++ rest), ?_, ?_⟩
      · rw [mem_run_lit]; exact ⟨by simpa using hs, rfl⟩
      · rw [ih]; refine ⟨rfl, ?_⟩
        simp [he]; omega

theorem run_bot_cat (r : Regexp) (pos : Nat) (s : GoString) :
    (Regexp.cat .bot r).run pos s = if pos = 0 then r.run 0 s else [] := by
  by_cases h : pos = 0
  · subst h; simp [Regexp.run]
  · simp [Regexp.run, h]

theorem find_bot_cat_succ (r : Regexp) :
    ∀ (s : GoString) (pos : Nat), (Regexp.cat .bot r).find (pos + 1) s = none := by
  intro s
  induction s with
  | nil => intro pos; rw [Regexp.find, run_bot_cat]; simp
  | cons c t ih => intro pos; rw [Regexp.find, run_bot_cat]; simp [ih]

theorem matchString_bot_cat (r : Regexp) (s : GoString) :
    (Regexp.cat .bot r).MatchString s = true ↔ ∃ x, x ∈ r.run 0 s := by
  unfold Regexp.MatchString Regexp.doExecute
  simp only [Nat.zero_le, if_true, List.drop_zero]
  cases s with
  | nil =>
    rw [Regexp.find, run_bot_cat]
    simp only [if_true]
    cases h : r.run 0 [] with
    | nil => simp
    | cons x l => simp
  | cons c t =>
    rw [Regexp.find, run_bot_cat]
    simp only [if_true]
    cases h : r.run 0 (c :: t) with
    | nil => simp [find_bot_cat_succ]
    | cons x l => simp

theorem mem_run_lit_cat (b : UInt8) (r : Regexp) (pos : Nat) (s : GoString)
    (x : Nat × GoString) :
    x ∈ (Regexp.cat (.lit b) r).run pos s ↔ ∃ t, s = b :: t ∧ x ∈ r.run (pos + 1) t := by
  rw [mem_run_cat]
  constructor
  · rintro ⟨⟨e1, r1⟩, h1, h2⟩
    rw [mem_run_lit] at h1
    obtain ⟨hs, he⟩ := h1
    subst he
    exact ⟨r1, hs, h2⟩
  · rintro ⟨t, hs, h2⟩
    exact ⟨(pos + 1, t), (mem_run_lit b pos s (pos + 1) t).2 ⟨hs, rfl⟩, h2⟩

theorem mem_run_plus_cat (rs : List (UInt8 × UInt8)) (r : Regexp) (pos : Nat) (s : GoString)
    (x : Nat × GoString) :
    x ∈ (Regexp.cat (Regexp.plus (.cls rs)) r).run pos s ↔
      ∃ a t : GoString, a ≠ [] ∧ (∀ y ∈ a, inRanges rs y = true) ∧ s = a ++ t ∧
        x ∈ r.run (pos + a.length) t := by
  rw [mem_run_cat]
  constructor
  · rintro ⟨⟨e1, r1⟩, h1, h2⟩
    rw [mem_run_plus_cls] at h1
    obtain ⟨a, hne, ha, hs, he⟩ := h1
    subst he
    exact ⟨a, r1, hne, ha, hs, h2⟩
  · rintro ⟨a, t, hne, ha, hs, h2⟩
    exact ⟨(pos + a.length, t), (mem_run_plus_cls rs pos s _ t).2 ⟨a, hne, ha, hs, rfl⟩, h2⟩

/-- The pattern `coreVersionRegexp` matches somewhere in `s` exactly when the whole of
`s` has the shape `IsCoreVersion`. -/
theorem coreVersion_match_iff (s : GoString) :
    coreVersionRegexp.MatchString s = true ↔ IsCoreVersion s := by
  unfold coreVersionRegexp digitClass IsCoreVersion
  rw [matchString_bot_cat]
  simp only [mem_run_lit_cat, mem_run_plus_cat, Prod.exists, mem_run_eot, isDigit_eq_inRanges]
  constructor
  · rintro ⟨e, rest, t, hs, a, t2, hna, ha, ht, t3, ht2, b, t4, hnb, hb, ht3, t5, ht4, c, t6,
      hnc, hc, ht5, ht6, _⟩
    refine ⟨a, b, c, hna, hnb, hnc, ha, hb, hc, ?_⟩
    rw [hs, ht, ht2, ht3, ht4, ht5, ht6, List.append_nil]
  · rintro ⟨a, b, c, hna, hnb, hnc, ha, hb, hc, hs⟩
    exact ⟨_, [], _, hs, a, _, hna, ha, rfl, _, rfl, b, _, hnb, hb, rfl, _, rfl, c, [], hnc, hc,
      by simp, rfl, rfl, rfl⟩

theorem coreVersion_validate_iff (s : GoString) :
    coreUpdateRequest.validate ⟨s⟩ = .ok () ↔ IsCoreVersion s := by
  unfold coreUpdateRequest.validate
  by_cases h0 : s = []
  · subst h0
    simp only [if_true]
    constructor
    · intro h; cases h
    · rintro ⟨a, b, c, _, _, _, _, _, _, hs⟩; cases hs
  · simp only [h0, if_false]
    by_cases hm : coreVersionRegexp.MatchString s = true
    · simp only [hm, Bool.not_true, Bool.false_eq_true, if_false, true_iff]
      exact (coreVersion_match_iff s).1 hm
    · have hm2 : coreVersionRegexp.MatchString s = false := by simpa using hm
      simp only [hm2, Bool.not_false, if_true]
      constructor
      · intro h; cases h
      · intro h; exact absurd ((coreVersion_match_iff s).2 h) hm

/-- The pattern `geofileRegionRegexp` matches somewhere in `s` exactly when `s` is one
of the three regions. -/
theorem region_match_iff (s : GoString) :
    geofileRegionRegexp.MatchString s = true ↔ s ∈ regions := by
  unfold geofileRegionRegexp regions
  rw [matchString_bot_cat]
  simp only [mem_run_cat, mem_run_alt, mem_run_str, Prod.exists, mem_run_eot]
  constructor
  · rintro ⟨e, rest, e1, r1, h1, h2, h3, _⟩
    subst h2
    simp only [List.append_nil] at h1
    rcases h1 with h | h | h
    · simp [h.1]
    · simp [h.1]
    · simp [h.1]
  · intro h
    simp only [List.mem_cons, List.mem_singleton, List.not_mem_nil, or_false] at h
    rcases h with h | h | h
    · exact ⟨_, [], _, [], Or.inl ⟨by simp [h], rfl⟩, rfl, rfl, rfl⟩
    · exact ⟨_, [], _, [], Or.inr (Or.inl ⟨by simp [h], rfl⟩), rfl, rfl, rfl⟩
    · exact ⟨_, [], _, [], Or.inr (Or.inr ⟨by simp [h], rfl⟩), rfl, rfl, rfl⟩

/-! ## ANSI stripping -/

theorem isParam_ne_m (c : UInt8) (h : isParam c = true) : c ≠ 0x6d := by
  rintro rfl
  revert h
  decide

theorem run_ansiTail :
    ∀ (s : GoString) (pos : Nat),
      (Regexp.cat (.star (.cls [(0x30, 0x39), (0x3b, 0x3b)])) (.lit 0x6d)).run pos s =
        match csiTail s with
        | some n => [(pos + n, s.drop n)]
        | none => [] := by
  intro s
  induction s with
  | nil =>
    intro pos
    rw [Regexp.run, run_star_cls]
    simp [classRuns, Regexp.run, csiTail]
  | cons c t ih =>
    intro pos
    have ih1 := ih (pos + 1)
    rw [Regexp.run, run_star_cls] at ih1 ⊢
    by_cases hc : isParam c = true
    · have hm : c ≠ 0x6d := isParam_ne_m c hc
      rw [classRuns, if_pos (by rw [isParam_eq_inRanges]; exact hc), List.flatMap_append, ih1]
      simp only [csiTail, hc, if_true]
      cases csiTail t with
      | none => simp [Regexp.run, hm]
      | some n => simp [Regexp.run, hm]; omega
    · have hc2 : ¬ inRanges [(0x30, 0x39), (0x3b, 0x3b)] c = true := by
        rw [isParam_eq_inRanges]; exact hc
      rw [classRuns, if_neg hc2]
      simp only [csiTail, hc, Bool.false_eq_true, if_false]
      by_cases hm : c = 0x6d
      · simp [Regexp.run, hm]
      · simp [Regexp.run, hm]

/-- The pattern `ansiRegexp` matches at the start of `s` in at most one way, the CSI
sequence found by `csiLen`. -/
theorem run_ansi (s : GoString) (pos : Nat) :
    ansiRegexp.run pos s =
      match csiLen s with
      | some n => [(pos + n, s.drop n)]
      | none => [] := by
  unfold ansiRegexp
  rw [Regexp.run]
  cases s with
  | nil => simp [Regexp.run, csiLen]
  | cons c t =>
    by_cases hc : c = 0x1b
    · cases t with
      | nil => simp [Regexp.run, csiLen]
      | cons d u =>
        by_cases hd : d = 0x5b
        · have h1 : (Regexp.lit 0x1b).run pos (c :: d :: u) = [(pos + 1, d :: u)] := by
            simp [Regexp.run, hc]
          rw [h1, List.flatMap_singleton]
          show (Regexp.cat (.lit 0x5b) _).run (pos + 1) (d :: u) = _
          rw [Regexp.run]
          have h2 : (Regexp.lit 0x5b).run (pos + 1) (d :: u) = [(pos + 1 + 1, u)] := by
            simp [Regexp.run, hd]
          rw [h2, List.flatMap_singleton]
          show (Regexp.cat _ _).run (pos + 1 + 1) u = _
          rw [run_ansiTail]
          simp only [csiLen, hc, hd, and_self, if_true]
          cases csiTail u with
          | none => simp
          | some n => simp; omega
        · have h1 : (Regexp.lit 0x1b).run pos (c :: d :: u) = [(pos + 1, d :: u)] := by
            simp [Regexp.run, hc]
          rw [h1, List.flatMap_singleton]
          show (Regexp.cat (.lit 0x5b) _).run (pos + 1) (d :: u) = _
          rw [Regexp.run]
          simp [Regexp.run, hd, csiLen]
    · have h1 : (Regexp.lit 0x1b).run pos (c :: t) = [] := by simp [Regexp.run, hc]
      rw [h1]
      cases t with
      | nil => simp [csiLen]
      | cons d u => simp [csiLen, hc]

theorem csiTail_pos (s : GoString) (n : Nat) (h : csiTail s = some n) :
    1 ≤ n ∧ n ≤ s.length := by
  induction s generalizing n with
  | nil => simp [csiTail] at h
  | cons c t ih =>
    by_cases hc : isParam c = true
    · simp only [csiTail, hc, if_true] at h
      cases ht : csiTail t with
      | none => simp [ht] at h
      | some k =>
        have := ih k ht
        simp [ht] at h
        subst h
        simp; omega
    · simp only [csiTail, hc, Bool.false_eq_true, if_false] at h
      by_cases hm : c = 0x6d
      · simp [hm] at h; subst h; simp
      · simp [hm] at h

theorem csiLen_pos (s : GoString) (n : Nat) (h : csiLen s = some n) :
    3 ≤ n ∧ n ≤ s.length ∧ s.head? = some 0x1b := by
  cases s with
  | nil => simp [csiLen] at h
  | cons c t =>
    cases t with
    | nil => simp [csiLen] at h
    | cons d u =>
      by_cases hcd : c = 0x1b ∧ d = 0x5b
      · simp only [csiLen, hcd, and_self, if_true] at h
        cases hu : csiTail u with
        | none => simp [hu] at h
        | some k =>
          have := csiTail_pos u k hu
          simp [hu] at h
          subst h
          simp [hcd.1]; omega
      · simp [csiLen, hcd] at h

theorem stripFrom_drop : ∀ (s : GoString) (k : Nat), stripFrom k s = stripFrom 0 (s.drop k) := by
  intro s
  induction s with
  | nil => intro k; cases k <;> simp [stripFrom]
  | cons c t ih =>
    intro k
    cases k with
    | zero => simp
    | succ k => simp [stripFrom, ih k]

theorem stripFrom_cons (c : UInt8) (t : GoString) :
    stripFrom 0 (c :: t) =
      match csiLen (c :: t) with
      | some n => stripFrom 0 ((c :: t).drop n)
      | none => c :: stripFrom 0 t := by
  rw [stripFrom]
  cases h : csiLen (c :: t) with
  | none => rfl
  | some n =>
    have hn := csiLen_pos _ _ h
    obtain ⟨m, rfl⟩ : ∃ m, n = m + 1 := ⟨n - 1, by omega⟩
    simp [stripFrom_drop t m]

theorem find_ansi_none :
    ∀ (s : GoString) (pos : Nat), ansiRegexp.find pos s = none → stripFrom 0 s = s := by
  intro s
  induction s with
  | nil => intro pos _; rfl
  | cons c t ih =>
    intro pos h
    rw [Regexp.find, run_ansi] at h
    rw [stripFrom_cons]
    cases hl : csiLen (c :: t) with
    | none =>
      rw [hl] at h
      simp only at h ⊢
      rw [ih (pos + 1) h]
    | some n => rw [hl] at h; simp at h

theorem find_ansi_some :
    ∀ (s : GoString) (pos a0 a1 : Nat), ansiRegexp.find pos s = some (a0, a1) →
      pos ≤ a0 ∧ a0 + 3 ≤ a1 ∧ a1 ≤ pos + s.length ∧
      stripFrom 0 s = s.take (a0 - pos) ++ stripFrom 0 (s.drop (a1 - pos)) ∧
      (a0 = pos → s.head? = some 0x1b) := by
  intro s
  induction s with
  | nil =>
    intro pos a0 a1 h
    rw [Regexp.find, run_ansi] at h
    simp [csiLen] at h
  | cons c t ih =>
    intro pos a0 a1 h
    rw [Regexp.find, run_ansi] at h
    cases hl : csiLen (c :: t) with
    | none =>
      rw [hl] at h
      simp only at h
      obtain ⟨h1, h2, h3, h4, _⟩ := ih (pos + 1) a0 a1 h
      refine ⟨by omega, h2, by simp; omega, ?_, fun h5 => by omega⟩
      rw [stripFrom_cons, hl]
      simp only
      obtain ⟨i, hi⟩ : ∃ i, a0 - pos = i + 1 := ⟨a0 - pos - 1, by omega⟩
      obtain ⟨j, hj⟩ : ∃ j, a1 - pos = j + 1 := ⟨a1 - pos - 1, by omega⟩
      have hi2 : a0 - (pos + 1) = i := by omega
      have hj2 : a1 - (pos + 1) = j := by omega
      rw [hi, hj, List.take_succ_cons, List.drop_succ_cons, h4, hi2, hj2, List.cons_append]
    | some n =>
      rw [hl] at h
      simp only [Option.some.injEq, Prod.mk.injEq] at h
      obtain ⟨hn1, hn2, hn3⟩ := csiLen_pos _ _ hl
      obtain ⟨rfl, rfl⟩ := h
      refine ⟨le_refl _, by omega, by omega, ?_, fun _ => hn3⟩
      rw [stripFrom_cons, hl]
      simp

theorem decodeRune_esc (t : GoString) : (decodeRune (0x1b :: t)).2 = 1 := by
  simp [decodeRune, utf8First]

theorem decodeRune_width_le (p : GoString) : (decodeRune p).2 ≤ 4 := by
  unfold decodeRune
  repeat' split
  all_goals first
    | (dsimp only; split_ifs <;> simp)
    | simp

/-- The loop of `replaceAll`, run on `ansiRegexp` with the empty replacement
and enough fuel, copies the text and leaves out each CSI sequence it meets. -/
theorem replaceAllLoop_ansi (src : GoString) :
    ∀ (fuel sp : Nat) (buf : GoString), sp ≤ src.length → src.length + 2 ≤ fuel + sp →
      ansiRegexp.replaceAllLoop src [] fuel sp sp buf = buf ++ stripFrom 0 (src.drop sp) := by
  intro fuel
  induction fuel with
  | zero => intro sp buf h1 h2; omega
  | succ f ih =>
    intro sp buf h1 h2
    rw [Regexp.replaceAllLoop, if_neg (by omega)]
    unfold Regexp.doExecute
    rw [if_pos h1]
    cases hf : ansiRegexp.find sp (src.drop sp) with
    | none =>
      simp only
      rw [find_ansi_none _ _ hf]
    | some m =>
      obtain ⟨a0, a1⟩ := m
      obtain ⟨h3, h4, h5, h6, h7⟩ := find_ansi_some _ _ _ _ hf
      have hlen : (src.drop sp).length = src.length - sp := by simp
      have hw := decodeRune_width_le (src.drop sp)
      have hw2 : sp + (decodeRune (src.drop sp)).2 ≤ a1 := by
        by_cases h8 : a0 = sp
        · have h9 := h7 h8
          cases hd : src.drop sp with
          | nil => rw [hd] at h9; simp at h9
          | cons c t =>
            rw [hd] at h9
            simp only [List.head?_cons, Option.some.injEq] at h9
            subst h9
            rw [decodeRune_esc]
            omega
        · omega
      simp only [List.append_nil, ite_self]
      rw [if_neg (by omega), if_neg (by omega)]
      rw [ih a1 _ (by omega) (by omega), h6, List.drop_drop, List.append_assoc]
      have h10 : sp + (a1 - sp) = a1 := by omega
      rw [h10]

/-- The function `cleanANSI` computes `stripFrom 0`: the fuel of the loop is never
used up. -/
theorem cleanANSI_eq_stripFrom (s : GoString) : cleanANSI s = stripFrom 0 s := by
  unfold cleanANSI Regexp.ReplaceAllString
  rw [replaceAllLoop_ansi s (s.length + 2) 0 [] (Nat.zero_le _) (by omega)]
  simp

theorem cleanANSI_nil : cleanANSI [] = [] := by
  rw [cleanANSI_eq_stripFrom]; rfl

/-- The recursion equation of `cleanANSI`: a CSI sequence at the start is
dropped and stripping goes on after it; otherwise the first byte is kept. -/
theorem cleanANSI_cons (c : UInt8) (t : GoString) :
    cleanANSI (c :: t) =
      match csiLen (c :: t) with
      | some n => cleanANSI ((c :: t).drop n)
      | none => c :: cleanANSI t := by
  rw [cleanANSI_eq_stripFrom, stripFrom_cons]
  cases csiLen (c :: t) with
  | none => simp only [cleanANSI_eq_stripFrom]
  | some n => simp only [cleanANSI_eq_stripFrom]

theorem csiTail_some_iff :
    ∀ (s : GoString) (n : Nat),
      csiTail s = some n ↔
        ∃ ps rest : GoString, (∀ x ∈ ps, isParam x = true) ∧ s = ps ++ 0x6d :: rest ∧
          n = ps.length + 1 := by
  intro s
  induction s with
  | nil =>
    intro n
    simp only [csiTail, reduceCtorEq, false_iff, not_exists, not_and]
    intro ps rest _ h
    simp at h
  | cons c t ih =>
    intro n
    by_cases hc : isParam c = true
    · simp only [csiTail, hc, if_true]
      constructor
      · intro h
        cases ht : csiTail t with
        | none => simp [ht] at h
        | some k =>
          simp only [ht, Option.map_some', Option.some.injEq] at h
          obtain ⟨ps, rest, hps, hs, hk⟩ := (ih k).1 ht
          refine ⟨c :: ps, rest, ?_, by simp [hs], by simp; omega⟩
          intro x hx
          rcases List.mem_cons.1 hx with rfl | hx
          · exact hc
          · exact hps x hx
      · rintro ⟨ps, rest, hps, hs, hn⟩
        cases ps with
        | nil =>
          simp only [List.nil_append, List.cons.injEq] at hs
          exact absurd hs.1 (isParam_ne_m c hc)
        | cons x ps =>
          simp only [List.cons_append, List.cons.injEq] at hs
          have h2 : csiTail t = some (ps.length + 1) :=
            (ih _).2 ⟨ps, rest, fun y hy => hps y (List.mem_cons_of_mem _ hy), hs.2, rfl⟩
          simp [h2, hn]
    · simp only [csiTail, hc, Bool.false_eq_true, if_false]
      by_cases hm : c = 0x6d
      · simp only [hm, if_true, Option.some.injEq]
        constructor
        · intro h; exact ⟨[], t, by simp, by simp, by simp [h]⟩
        · rintro ⟨ps, rest, hps, hs, hn⟩
          cases ps with
          | nil => simp [hn]
          | cons x ps =>
            simp only [List.cons_append, List.cons.injEq] at hs
            have := hps x (List.mem_cons_self _ _)
            rw [← hs.1] at this
            exact absurd this (by simpa [hm] using hc)
      · simp only [hm, if_false, reduceCtorEq, false_iff, not_exists, not_and]
        intro ps rest hps hs
        cases ps with
        | nil =>
          simp only [List.nil_append, List.cons.injEq] at hs
          exact absurd hs.1 hm
        | cons x ps =>
          simp only [List.cons_append, List.cons.injEq] at hs
          have := hps x (List.mem_cons_self _ _)
          rw [← hs.1] at this
          exact absurd this hc

/-- The function `csiLen` finds a CSI sequence at the start of `s` exactly when
there is one, and returns its length. -/
theorem csiLen_some_iff (s : GoString) (n : Nat) :
    csiLen s = some n ↔ ∃ m rest : GoString, IsCSI m ∧ s = m ++ rest ∧ n = m.length := by
  constructor
  · intro h
    cases s with
    | nil => simp [csiLen] at h
    | cons c t =>
      cases t with
      | nil => simp [csiLen] at h
      | cons d u =>
        by_cases hcd : c = 0x1b ∧ d = 0x5b
        · simp only [csiLen, hcd, and_self, if_true] at h
          cases hu : csiTail u with
          | none => simp [hu] at h
          | some k =>
            simp only [hu, Option.map_some', Option.some.injEq] at h
            obtain ⟨ps, rest, hps, hs, hk⟩ := (csiTail_some_iff u k).1 hu
            refine ⟨0x1b :: 0x5b :: (ps ++ [0x6d]), rest, ⟨ps, hps, rfl⟩, ?_, ?_⟩
            · simp [hcd.1, hcd.2, hs]
            · simp; omega
        · simp [csiLen, hcd] at h
  · rintro ⟨m, rest, ⟨ps, hps, hm⟩, hs, hn⟩
    subst hm
    subst hs
    have h2 : csiTail (ps ++ 0x6d :: rest) = some (ps.length + 1) :=
      (csiTail_some_iff _ _).2 ⟨ps, rest, hps, rfl, rfl⟩
    simp [csiLen, h2, hn]

theorem csiLen_none_iff (s : GoString) :
    csiLen s = none ↔ ¬ ∃ m rest : GoString, IsCSI m ∧ s = m ++ rest := by
  constructor
  · rintro h ⟨m, rest, hm, hs⟩
    have := (csiLen_some_iff s m.length).2 ⟨m, rest, hm, hs, rfl⟩
    rw [h] at this
    cases this
  · intro h
    cases hl : csiLen s with
    | none => rfl
    | some n =>
      obtain ⟨m, rest, hm, hs, _⟩ := (csiLen_some_iff s n).1 hl
      exact absurd ⟨m, rest, hm, hs⟩ h

theorem isCSI_ne_nil (m : GoString) (h : IsCSI m) : m ≠ [] := by
  obtain ⟨ps, _, rfl⟩ := h
  simp

theorem cleanANSI_csi_append (m rest : GoString) (h : IsCSI m) :
    cleanANSI (m ++ rest) = cleanANSI rest := by
  have hl := (csiLen_some_iff (m ++ rest) m.length).2 ⟨m, rest, h, rfl, rfl⟩
  cases hm : m ++ rest with
  | nil =>
    have : m = [] := (List.append_eq_nil.1 hm).1
    exact absurd this (isCSI_ne_nil m h)
  | cons c t =>
    rw [hm] at hl
    rw [cleanANSI_cons, hl, ← hm]
    simp

theorem cleanANSI_cons_of_none (c : UInt8) (t : GoString) (h : csiLen (c :: t) = none) :
    cleanANSI (c :: t) = c :: cleanANSI t := by
  rw [cleanANSI_cons, h]

/-- Induction along the way `cleanANSI` reads a text. -/
theorem cleanANSI_induction {P : GoString → Prop} (hnil : P [])
    (hdrop : ∀ m rest : GoString, IsCSI m → P rest → P (m ++ rest))
    (hkeep : ∀ (c : UInt8) (t : GoString), csiLen (c :: t) = none → P t → P (c :: t)) :
    ∀ s : GoString, P s := by
  intro s
  induction' hn : s.length using Nat.strong_induction_on with n ih generalizing s
  cases s with
  | nil => exact hnil
  | cons c t =>
    cases hl : csiLen (c :: t) with
    | none => exact hkeep c t hl (ih t.length (by simp [← hn]) t rfl)
    | some k =>
      obtain ⟨m, rest, hm, hs, _⟩ := (csiLen_some_iff _ k).1 hl
      rw [hs]
      refine hdrop m rest hm (ih rest.length ?_ rest rfl)
      have h1 : (c :: t).length = m.length + rest.length := by rw [hs]; simp
      have h2 : 0 < m.length := List.length_pos.2 (isCSI_ne_nil m hm)
      omega

theorem cleanANSI_stripped (s : GoString) : Stripped s (cleanANSI s) := by
  induction s using cleanANSI_induction with
  | hnil => rw [cleanANSI_nil]; exact Stripped.done
  | hdrop m rest hm ih => rw [cleanANSI_csi_append m rest hm]; exact Stripped.drop m rest _ hm ih
  | hkeep c t hl ih =>
    rw [cleanANSI_cons_of_none c t hl]
    exact Stripped.keep c t _ ((csiLen_none_iff _).1 hl) ih

theorem cleanANSI_length_le (s : GoString) : (cleanANSI s).length ≤ s.length := by
  induction s using cleanANSI_induction with
  | hnil => simp [cleanANSI_nil]
  | hdrop m rest hm ih => rw [cleanANSI_csi_append m rest hm]; simp; omega
  | hkeep c t hl ih => rw [cleanANSI_cons_of_none c t hl]; simp; omega

theorem containsCSI_cons (c : UInt8) (t : GoString) (hl : csiLen (c :: t) = none)
    (h : ContainsCSI (c :: t)) : ContainsCSI t := by
  obtain ⟨pre, m, post, hm, hs⟩ := h
  cases pre with
  | nil => exact absurd ⟨m, post, hm, by simpa using hs⟩ ((csiLen_none_iff _).1 hl)
  | cons x pre =>
    simp only [List.cons_append, List.cons.injEq] at hs
    exact ⟨pre, m, post, hm, hs.2⟩

theorem cleanANSI_of_not_containsCSI (s : GoString) (h : ¬ ContainsCSI s) : cleanANSI s = s := by
  induction s with
  | nil => exact cleanANSI_nil
  | cons c t ih =>
    have hl : csiLen (c :: t) = none := by
      rw [csiLen_none_iff]
      rintro ⟨m, rest, hm, hs⟩
      exact h ⟨[], m, rest, hm, by simpa using hs⟩
    rw [cleanANSI_cons_of_none c t hl, ih]
    rintro ⟨pre, m, post, hm, hs⟩
    exact h ⟨c :: pre, m, post, hm, by simp [hs]⟩

theorem cleanANSI_length_lt (s : GoString) (h : ContainsCSI s) :
    (cleanANSI s).length < s.length := by
  induction s using cleanANSI_induction with
  | hnil =>
    obtain ⟨pre, m, post, hm, hs⟩ := h
    have h1 : m = [] := by
      have := congrArg List.length hs
      simp at this
      exact List.length_eq_zero.1 (by omega)
    exact absurd h1 (isCSI_ne_nil m hm)
  | hdrop m rest hm _ =>
    rw [cleanANSI_csi_append m rest hm]
    have h1 := cleanANSI_length_le rest
    have h2 : 0 < m.length := List.length_pos.2 (isCSI_ne_nil m hm)
    simp; omega
  | hkeep c t hl ih =>
    rw [cleanANSI_cons_of_none c t hl]
    have := ih (containsCSI_cons c t hl h)
    simp; omega

theorem cleanANSI_fixed_iff (s : GoString) : cleanANSI s = s ↔ ¬ ContainsCSI s := by
  constructor
  · intro h hc
    have := cleanANSI_length_lt s hc
    rw [h] at this
    exact Nat.lt_irrefl _ this
  · exact cleanANSI_of_not_containsCSI s

theorem isCSI_mem_esc (m : GoString) (h : IsCSI m) : (0x1b : UInt8) ∈ m := by
  obtain ⟨ps, _, rfl⟩ := h
  simp

theorem not_containsCSI_of_no_esc (s : GoString) (h : (0x1b : UInt8) ∉ s) : ¬ ContainsCSI s := by
  rintro ⟨pre, m, post, hm, hs⟩
  apply h
  rw [hs]
  simp [isCSI_mem_esc m hm]

theorem escClosed_tail (c : UInt8) (t : GoString) (h : EscClosed (c :: t)) : EscClosed t := by
  intro pre post hs
  exact h (c :: pre) post (by simp [hs])

theorem escClosed_append_right (m rest : GoString) (h : EscClosed (m ++ rest)) :
    EscClosed rest := by
  intro pre post hs
  exact h (m ++ pre) post (by simp [hs])

theorem cleanANSI_no_esc (s : GoString) (h : EscClosed s) : (0x1b : UInt8) ∉ cleanANSI s := by
  induction s using cleanANSI_induction with
  | hnil => simp [cleanANSI_nil]
  | hdrop m rest hm ih =>
    rw [cleanANSI_csi_append m rest hm]
    exact ih (escClosed_append_right m rest h)
  | hkeep c t hl ih =>
    rw [cleanANSI_cons_of_none c t hl]
    have hc : c ≠ 0x1b := by
      rintro rfl
      obtain ⟨m, rest, hm, hs⟩ := h [] t rfl
      exact (csiLen_none_iff _).1 hl ⟨m, rest, hm, hs⟩
    intro hmem
    rcases List.mem_cons.1 hmem with h1 | h1
    · exact hc h1.symm
    · exact ih (escClosed_tail c t h) h1

/-! ## Sequences that one pass leaves behind -/

theorem isParam_ne_esc (x : UInt8) (h : isParam x = true) : x ≠ 0x1b := by
  rintro rfl
  revert h
  decide

theorem isCSI_head (m : GoString) (h : IsCSI m) : ∃ t : GoString, m = 0x1b :: t := by
  obtain ⟨ps, _, rfl⟩ := h
  exact ⟨_, rfl⟩

/-- The only `ESC` byte of a CSI sequence is its first byte. -/
theorem isCSI_tail_no_esc (t : GoString) (h : IsCSI (0x1b :: t)) : (0x1b : UInt8) ∉ t := by
  obtain ⟨ps, hps, he⟩ := h
  simp only [List.cons.injEq, true_and] at he
  subst he
  intro hm
  simp only [List.mem_cons, List.mem_append, List.mem_singleton] at hm
  rcases hm with h | h | h
  · revert h; decide
  · exact isParam_ne_esc _ (hps _ h) rfl
  · revert h; decide

/-- At most one CSI sequence starts at a given position. -/
theorem isCSI_prefix_unique (m1 m2 r1 r2 : GoString) (h1 : IsCSI m1) (h2 : IsCSI m2)
    (h : m1 ++ r1 = m2 ++ r2) : m1 = m2 := by
  have e1 := (csiLen_some_iff (m1 ++ r1) m1.length).2 ⟨m1, r1, h1, rfl, rfl⟩
  have e2 := (csiLen_some_iff (m1 ++ r1) m2.length).2 ⟨m2, r2, h2, h, rfl⟩
  rw [e1] at e2
  exact (List.append_inj h (Option.some.inj e2)).1

/-- A byte other than `ESC` starts no CSI sequence. -/
theorem csiLen_of_ne_esc (c : UInt8) (t : GoString) (h : c ≠ 0x1b) : csiLen (c :: t) = none := by
  cases hh : csiLen (c :: t) with
  | none => rfl
  | some n =>
    have := (csiLen_pos _ n hh).2.2
    simp only [List.head?_cons, Option.some.injEq] at this
    exact absurd this h

/-- Bytes other than `ESC` are kept. -/
theorem cleanANSI_no_esc_append (w z : GoString) (h : (0x1b : UInt8) ∉ w) :
    cleanANSI (w ++ z) = w ++ cleanANSI z := by
  induction w with
  | nil => rfl
  | cons c t ih =>
    have hc : c ≠ 0x1b := fun e => h (by simp [e])
    rw [List.cons_append, cleanANSI_cons_of_none c _ (csiLen_of_ne_esc c _ hc),
      ih (fun hm => h (List.mem_cons_of_mem _ hm))]
    rfl

/-- A CSI sequence that starts in front of an `ESC` byte ends in front of it. -/
theorem csiLen_append_esc (c : UInt8) (t b : GoString) (h : csiLen (c :: t) = none) :
    csiLen (c :: (t ++ 0x1b :: b)) = none := by
  rw [csiLen_none_iff] at h ⊢
  rintro ⟨m, rest, hm, he⟩
  rw [← List.cons_append] at he
  rcases List.append_eq_append_iff.1 he with ⟨a2, h1, h2⟩ | ⟨c2, h1, _⟩
  · cases a2 with
    | nil => exact h ⟨m, [], hm, by simpa using h1.symm⟩
    | cons x a3 =>
      simp only [List.cons_append, List.cons.injEq] at h2
      obtain ⟨mt, rfl⟩ := isCSI_head m hm
      simp only [List.cons_append, List.cons.injEq] at h1
      apply isCSI_tail_no_esc mt hm
      rw [h1.2, ← h2.1]
      simp
  · exact h ⟨m, c2, hm, h1⟩

/-- Stripping in front of an `ESC` byte does not depend on what follows it. -/
theorem cleanANSI_append_esc (a b : GoString) :
    cleanANSI (a ++ 0x1b :: b) = cleanANSI a ++ cleanANSI (0x1b :: b) := by
  induction' hn : a.length using Nat.strong_induction_on with n ih generalizing a
  cases a with
  | nil => simp [cleanANSI_nil]
  | cons c t =>
    cases hl : csiLen (c :: t) with
    | none =>
      rw [List.cons_append, cleanANSI_cons_of_none _ _ (csiLen_append_esc c t b hl),
        cleanANSI_cons_of_none _ _ hl, ih t.length (by simp [← hn]) t rfl]
      rfl
    | some k =>
      obtain ⟨m, rest, hm, hs, _⟩ := (csiLen_some_iff _ _).1 hl
      have hlen : rest.length < n := by
        have h0 := isCSI_ne_nil m hm
        have h1 : 0 < m.length := List.length_pos.2 h0
        have h2 := congrArg List.length hs
        simp only [List.length_cons, List.length_append] at h2
        simp only [List.length_cons] at hn
        omega
      rw [hs, List.append_assoc, cleanANSI_csi_append m _ hm, cleanANSI_csi_append m _ hm]
      exact ih rest.length hlen rest rfl

/-- The text `y` with CSI sequences inserted is stripped to `y`, when `y` has no
`ESC` byte. -/
theorem cleanANSI_withInserted (x y : GoString) (h : WithInserted x y)
    (hy : (0x1b : UInt8) ∉ y) (post : GoString) :
    cleanANSI (x ++ post) = y ++ cleanANSI post := by
  induction h with
  | done => rfl
  | byte c x y _ ih =>
    have hc : c ≠ 0x1b := fun e => hy (by simp [e])
    rw [List.cons_append, cleanANSI_cons_of_none c _ (csiLen_of_ne_esc c _ hc),
      ih (fun hm => hy (List.mem_cons_of_mem _ hm))]
    rfl
  | seq m x y hm _ ih =>
    rw [List.append_assoc, cleanANSI_csi_append m _ hm]
    exact ih hy

/-- The beginning of a split CSI sequence is kept: no CSI sequence starts at
its `ESC` byte. -/
theorem csiLen_split (o y m r : GoString) (ho : o ≠ []) (hy : y ≠ []) (hoy : IsCSI (o ++ y))
    (hm : IsCSI m) : csiLen (o ++ (m ++ r)) = none := by
  rw [csiLen_none_iff]
  rintro ⟨m1, rest, hm1, he⟩
  obtain ⟨dt, rfl⟩ := isCSI_head m hm
  rcases List.append_eq_append_iff.1 he with ⟨a2, h1, h2⟩ | ⟨c2, h1, _⟩
  · cases a2 with
    | nil =>
      have h3 : o = m1 := by simpa using h1.symm
      have := isCSI_prefix_unique m1 (o ++ y) y [] hm1 hoy (by simp [h3])
      rw [h3] at this
      exact hy (by simpa using this.symm)
    | cons x a3 =>
      simp only [List.cons_append, List.cons.injEq] at h2
      obtain ⟨mt, rfl⟩ := isCSI_head m1 hm1
      cases o with
      | nil => exact ho rfl
      | cons c o2 =>
        simp only [List.cons_append, List.cons.injEq] at h1
        apply isCSI_tail_no_esc mt hm1
        rw [h1.2, ← h2.1]
        simp
  · have := isCSI_prefix_unique m1 (o ++ y) (c2 ++ y) [] hm1 hoy (by simp [h1])
    rw [h1] at this
    have h4 := congrArg List.length this
    simp only [List.length_append] at h4
    have h5 : 0 < y.length := List.length_pos.2 hy
    omega

theorem containsCSI_of_split (s : GoString) (h : ContainsSplitCSI s) :
    ContainsCSI (cleanANSI s) := by
  obtain ⟨pre, o, m, x, y, post, ho, hy, hoy, hm, hx, rfl⟩ := h
  have hkeep := csiLen_split o y m (x ++ post) ho hy hoy hm
  cases o with
  | nil => exact absurd rfl ho
  | cons c o2 =>
    obtain ⟨t, ht⟩ := isCSI_head _ hoy
    simp only [List.cons_append, List.cons.injEq] at ht
    obtain ⟨rfl, rfl⟩ := ht
    have hoy2 : IsCSI (0x1b :: (o2 ++ y)) := hoy
    have hkeep2 : csiLen (0x1b :: (o2 ++ (m ++ (x ++ post)))) = none := hkeep
    have hno : (0x1b : UInt8) ∉ o2 ++ y := isCSI_tail_no_esc _ hoy2
    rw [List.cons_append, cleanANSI_append_esc, cleanANSI_cons_of_none _ _ hkeep2,
      cleanANSI_no_esc_append o2 _ (fun hm2 => hno (List.mem_append_left _ hm2)),
      cleanANSI_csi_append m _ hm,
      cleanANSI_withInserted x y hx (fun hm2 => hno (List.mem_append_right _ hm2)) post]
    exact ⟨cleanANSI pre, 0x1b :: (o2 ++ y), cleanANSI post, hoy, by simp⟩

/-- What is stripped to a text that begins with `y` begins with `y` with CSI
sequences inserted, when `y` has no `ESC` byte. -/
theorem withInserted_of_stripped (t out : GoString) (h : Stripped t out) :
    ∀ y b : GoString, out = y ++ b → (0x1b : UInt8) ∉ y →
      ∃ x post : GoString, WithInserted x y ∧ t = x ++ post := by
  induction h with
  | done =>
    intro y b h _
    have : y = [] := (List.append_eq_nil.1 h.symm).1
    subst this
    exact ⟨[], [], .done, rfl⟩
  | drop m rest out hm _ ih =>
    intro y b h hy
    obtain ⟨x, post, hx, rfl⟩ := ih y b h hy
    exact ⟨m ++ x, post, .seq m x y hm hx, by simp⟩
  | keep c t out hn _ ih =>
    intro y b h hy
    cases y with
    | nil => exact ⟨[], c :: t, .done, rfl⟩
    | cons d y2 =>
      simp only [List.cons_append, List.cons.injEq] at h
      obtain ⟨rfl, h⟩ := h
      obtain ⟨x, post, hx, rfl⟩ := ih y2 b h (fun hm => hy (List.mem_cons_of_mem _ hm))
      exact ⟨c :: x, post, .byte c x y2 hx, rfl⟩

/-- The first inserted sequence, if there is one. -/
theorem withInserted_first (x y : GoString) (h : WithInserted x y) :
    x = y ∨ ∃ o y2 m x2 : GoString, y = o ++ y2 ∧ IsCSI m ∧ WithInserted x2 y2 ∧
      x = o ++ (m ++ x2) := by
  induction h with
  | done => exact Or.inl rfl
  | byte c x y _ ih =>
    rcases ih with rfl | ⟨o, y2, m, x2, rfl, hm, hx, rfl⟩
    · exact Or.inl rfl
    · exact Or.inr ⟨c :: o, y2, m, x2, rfl, hm, hx, rfl⟩
  | seq m x y hm hx _ => exact Or.inr ⟨[], y, m, x, rfl, hm, hx, rfl⟩

theorem split_of_stripped (s out : GoString) (h : Stripped s out) :
    ContainsCSI out → ContainsSplitCSI s := by
  induction h with
  | done =>
    rintro ⟨pre, m, post, hm, hs⟩
    exfalso
    have h1 := (List.append_eq_nil.1 hs.symm).2
    exact isCSI_ne_nil m hm (List.append_eq_nil.1 h1).1
  | drop m rest out hm _ ih =>
    intro hc
    obtain ⟨pre, o, d, x, y, post, ho, hy, hoy, hd, hx, rfl⟩ := ih hc
    exact ⟨m ++ pre, o, d, x, y, post, ho, hy, hoy, hd, hx, by simp⟩
  | keep c t out hn hst ih =>
    rintro ⟨pre, m, post, hm, hs⟩
    cases pre with
    | cons p pre2 =>
      simp only [List.cons_append, List.cons.injEq] at hs
      obtain ⟨pre, o, d, x, y, post, ho, hy, hoy, hd, hx, rfl⟩ := ih ⟨pre2, m, post, hm, hs.2⟩
      exact ⟨c :: pre, o, d, x, y, post, ho, hy, hoy, hd, hx, by simp⟩
    | nil =>
      obtain ⟨mt, rfl⟩ := isCSI_head m hm
      simp only [List.nil_append, List.cons_append, List.cons.injEq] at hs
      obtain ⟨rfl, hs⟩ := hs
      obtain ⟨x, post2, hx, rfl⟩ :=
        withInserted_of_stripped t out hst mt post hs (isCSI_tail_no_esc _ hm)
      rcases withInserted_first x mt hx with rfl | ⟨o, y2, d, x2, rfl, hd, hx2, rfl⟩
      · exact absurd ⟨0x1b :: x, post2, hm, by simp⟩ hn
      · by_cases hy2 : y2 = []
        · subst hy2
          exact absurd ⟨0x1b :: (o ++ []), d ++ x2 ++ post2, hm, by simp⟩ hn
        · exact ⟨[], 0x1b :: o, d, x2, y2, post2, by simp, hy2, hm, hd, hx2, by simp⟩

/-- One pass of `cleanANSI` leaves a CSI sequence exactly in the texts with a
split CSI sequence. -/
theorem containsCSI_cleanANSI_iff (s : GoString) :
    ContainsCSI (cleanANSI s) ↔ ContainsSplitCSI s :=
  ⟨split_of_stripped s _ (cleanANSI_stripped s), containsCSI_of_split s⟩

/-- The beginning of a split CSI sequence is an unterminated opener. -/
theorem isOpener_of_split (o y : GoString) (ho : o ≠ []) (hy : y ≠ []) (h : IsCSI (o ++ y)) :
    IsOpener o := by
  obtain ⟨ps, hps, he⟩ := h
  cases o with
  | nil => exact absurd rfl ho
  | cons c o2 =>
    simp only [List.cons_append, List.cons.injEq] at he
    obtain ⟨rfl, he⟩ := he
    cases o2 with
    | nil => exact Or.inl rfl
    | cons d o3 =>
      simp only [List.cons_append, List.cons.injEq] at he
      obtain ⟨rfl, he⟩ := he
      refine Or.inr ⟨o3, ?_, rfl⟩
      rcases List.append_eq_append_iff.1 he with ⟨a2, h1, _⟩ | ⟨c2, h1, h2⟩
      · intro x hx
        exact hps x (by rw [h1]; exact List.mem_append_left _ hx)
      · cases c2 with
        | nil =>
          intro x hx
          exact hps x (by simpa [h1] using hx)
        | cons e c3 =>
          exfalso
          have h3 := congrArg List.length h2
          simp only [List.length_cons, List.length_append, List.length_nil] at h3
          have h5 : 0 < y.length := List.length_pos.2 hy
          omega

theorem openerBeforeEsc_of_split (s : GoString) (h : ContainsSplitCSI s) : OpenerBeforeEsc s := by
  obtain ⟨pre, o, m, x, y, post, ho, hy, hoy, hm, _, rfl⟩ := h
  obtain ⟨dt, rfl⟩ := isCSI_head m hm
  exact ⟨pre, o, dt ++ (x ++ post), isOpener_of_split o y ho hy hoy, by simp⟩

theorem paramsThenEsc_append (ps r : GoString) (h : ∀ x ∈ ps, isParam x = true) :
    paramsThenEsc (ps ++ 0x1b :: r) = true := by
  induction ps with
  | nil => simp [paramsThenEsc]
  | cons c t ih =>
    simp only [List.cons_append, paramsThenEsc, Bool.or_eq_true, decide_eq_true_eq,
      Bool.and_eq_true]
    exact Or.inr ⟨h c (List.mem_cons_self _ _), ih (fun x hx => h x (List.mem_cons_of_mem _ hx))⟩

theorem openerThenEsc_append (o r : GoString) (h : IsOpener o) :
    openerThenEsc (o ++ 0x1b :: r) = true := by
  rcases h with rfl | ⟨ps, hps, rfl⟩
  · simp [openerThenEsc]
  · simp [openerThenEsc, paramsThenEsc_append ps r hps]

theorem openerBeforeEscB_append (pre z : GoString) (h : openerThenEsc z = true) :
    openerBeforeEscB (pre ++ z) = true := by
  induction pre with
  | nil =>
    cases z with
    | nil => simp [openerThenEsc] at h
    | cons c t => simp [openerBeforeEscB, h]
  | cons c t ih => simp [openerBeforeEscB, ih]

theorem openerBeforeEscB_of (s : GoString) (h : OpenerBeforeEsc s) : openerBeforeEscB s = true := by
  obtain ⟨pre, o, post, ho, rfl⟩ := h
  exact openerBeforeEscB_append pre _ (openerThenEsc_append o post ho)

theorem not_openerBeforeEsc (s : GoString) (h : openerBeforeEscB s = false) :
    ¬ OpenerBeforeEsc s := by
  intro hs
  rw [openerBeforeEscB_of s hs] at h
  cases h

/-! ## The encoder -/

theorem encodedTextFrom_of_ascii (s : GoString) (h : ∀ c ∈ s, c < 0x80) :
    encodedTextFrom 0 s = s := by
  induction s with
  | nil => rfl
  | cons c t ih =>
    have hc : c < 0x80 := h c (List.mem_cons_self _ _)
    rw [encodedTextFrom, if_pos hc, ih (fun x hx => h x (List.mem_cons_of_mem _ hx))]

/-- An ASCII string reaches the reader of the response unchanged. -/
theorem encodedText_of_ascii (s : GoString) (h : ∀ c ∈ s, c < 0x80) : encodedText s = s :=
  encodedTextFrom_of_ascii s h

/-- An ASCII text in front of a string reaches the reader unchanged, followed
by what the encoder makes of the rest. -/
theorem encodedText_ascii_append (a z : GoString) (h : ∀ c ∈ a, c < 0x80) :
    encodedText (a ++ z) = a ++ encodedText z := by
  unfold encodedText
  induction a with
  | nil => rfl
  | cons c t ih =>
    have hc : c < 0x80 := h c (List.mem_cons_self _ _)
    rw [List.cons_append, encodedTextFrom, if_pos hc,
      ih (fun x hx => h x (List.mem_cons_of_mem _ hx)), List.cons_append]

@[simp]
theorem encodeObject_singleton (k v : GoString) :
    encodeObject [(k, v)] = [(encodedText k, encodedText v)] := rfl

@[simp]
theorem enc_detail : encodedText (goStr "detail") = goStr "detail" :=
  encodedText_of_ascii _ (by decide)

@[simp]
theorem enc_status : encodedText (goStr "status") = goStr "status" :=
  encodedText_of_ascii _ (by decide)

@[simp]
theorem enc_ok : encodedText (goStr "ok") = goStr "ok" :=
  encodedText_of_ascii _ (by decide)

@[simp]
theorem enc_missing : encodedText (goStr "missing api key") = goStr "missing api key" :=
  encodedText_of_ascii _ (by decide)

@[simp]
theorem enc_invalid : encodedText (goStr "invalid api key") = goStr "invalid api key" :=
  encodedText_of_ascii _ (by decide)

@[simp]
theorem enc_updateFailed : encodedText (goStr "update failed on server") = goStr "update failed on server" :=
  encodedText_of_ascii _ (by decide)

@[simp]
theorem enc_updated : encodedText (goStr "node updated successfully") = goStr "node updated successfully" :=
  encodedText_of_ascii _ (by decide)

@[simp]
theorem enc_invalidJSON : encodedText (goStr "Invalid JSON body") = goStr "Invalid JSON body" :=
  encodedText_of_ascii _ (by decide)

@[simp]
theorem enc_coreUpdated : encodedText (goStr "node core updated successfully") = goStr "node core updated successfully" :=
  encodedText_of_ascii _ (by decide)

@[simp]
theorem enc_geoFailed : encodedText (goStr "geofiles update failed on server") = goStr "geofiles update failed on server" :=
  encodedText_of_ascii _ (by decide)

@[simp]
theorem enc_geoUpdated : encodedText (goStr "geofiles updated successfully") = goStr "geofiles updated successfully" :=
  encodedText_of_ascii _ (by decide)

@[simp]
theorem enc_required : encodedText (goStr "core_version is required") = goStr "core_version is required" :=
  encodedText_of_ascii _ (by decide)

@[simp]
theorem enc_pattern : encodedText (goStr "core_version must match pattern vX.X.X") = goStr "core_version must match pattern vX.X.X" :=
  encodedText_of_ascii _ (by decide)

/-- One step of the encoder: the byte is copied, or it is not ASCII and
U+FFFD is written for it. -/
theorem encodedTextFrom_cons (k : Nat) (c : UInt8) (t : GoString) :
    (∃ k2 : Nat, encodedTextFrom k (c :: t) = c :: encodedTextFrom k2 t) ∨
    (0x80 ≤ c ∧ encodedTextFrom k (c :: t) = 0xef :: 0xbf :: 0xbd :: encodedTextFrom 0 t) := by
  cases k with
  | succ k => exact Or.inl ⟨k, rfl⟩
  | zero =>
    by_cases hc : c < 0x80
    · exact Or.inl ⟨0, by simp [encodedTextFrom, hc]⟩
    · by_cases hd : (decodeRune (c :: t)).1 = RuneError ∧ (decodeRune (c :: t)).2 = 1
      · exact Or.inr ⟨by simpa using hc, by simp [encodedTextFrom, hc, hd]⟩
      · exact Or.inl ⟨(decodeRune (c :: t)).2 - 1, by simp [encodedTextFrom, hc, hd]⟩

/-- ASCII bytes are copied, whatever the encoder is in the middle of. -/
theorem encodedTextFrom_ascii_append (a : GoString) (h : ∀ c ∈ a, c < 0x80) :
    ∀ (k : Nat) (z : GoString), ∃ k2 : Nat,
      encodedTextFrom k (a ++ z) = a ++ encodedTextFrom k2 z := by
  induction a with
  | nil => intro k z; exact ⟨k, rfl⟩
  | cons c t ih =>
    intro k z
    have hc : c < 0x80 := h c (List.mem_cons_self _ _)
    rcases encodedTextFrom_cons k c (t ++ z) with ⟨k2, h2⟩ | ⟨h1, _⟩
    · obtain ⟨k3, h3⟩ := ih (fun x hx => h x (List.mem_cons_of_mem _ hx)) k2 z
      exact ⟨k3, by rw [List.cons_append, h2, h3]; rfl⟩
    · exact absurd hc (by simpa using h1)

theorem encodedTextFrom_append (a : GoString) :
    ∀ (k : Nat) (z : GoString), ∃ (w : GoString) (k2 : Nat),
      encodedTextFrom k (a ++ z) = w ++ encodedTextFrom k2 z := by
  induction a with
  | nil => intro k z; exact ⟨[], k, rfl⟩
  | cons c t ih =>
    intro k z
    rcases encodedTextFrom_cons k c (t ++ z) with ⟨k2, h2⟩ | ⟨_, h2⟩
    · obtain ⟨w, k3, h3⟩ := ih k2 z
      exact ⟨c :: w, k3, by rw [List.cons_append, h2, h3]; rfl⟩
    · obtain ⟨w, k3, h3⟩ := ih 0 z
      exact ⟨0xef :: 0xbf :: 0xbd :: w, k3, by rw [List.cons_append, h2, h3]; rfl⟩

theorem isDigit_lt (x : UInt8) (h : isDigit x = true) : x < 0x80 := by
  simp only [isDigit, Bool.and_eq_true, decide_eq_true_eq] at h
  have h2 : x.val ≤ (0x39 : UInt8).val := h.2
  show x.val < (0x80 : UInt8).val
  exact lt_of_le_of_lt h2 (by decide)

theorem isParam_lt (x : UInt8) (h : isParam x = true) : x < 0x80 := by
  simp only [isParam, Bool.or_eq_true, decide_eq_true_eq] at h
  rcases h with h | rfl
  · exact isDigit_lt x h
  · decide

theorem isCSI_ascii (m : GoString) (h : IsCSI m) : ∀ c ∈ m, c < 0x80 := by
  obtain ⟨ps, hps, rfl⟩ := h
  intro c hc
  simp only [List.mem_cons, List.mem_append, List.mem_singleton] at hc
  rcases hc with rfl | rfl | hc | rfl | hc
  · decide
  · decide
  · exact isParam_lt c (hps c hc)
  · decide
  · cases hc

/-- ASCII bytes in what the reader finds were in the string written, in the
same place. -/
theorem encodedTextFrom_eq_ascii_append (y : GoString) (hy : ∀ c ∈ y, c < 0x80) :
    ∀ (k : Nat) (t post : GoString), encodedTextFrom k t = y ++ post →
      ∃ post2 : GoString, t = y ++ post2 := by
  induction y with
  | nil => intro k t post _; exact ⟨t, rfl⟩
  | cons b y2 ih =>
    intro k t post h
    cases t with
    | nil => cases k <;> simp [encodedTextFrom] at h
    | cons c t2 =>
      rcases encodedTextFrom_cons k c t2 with ⟨k2, h2⟩ | ⟨_, h2⟩
      · rw [h2] at h
        simp only [List.cons_append, List.cons.injEq] at h
        obtain ⟨post2, rfl⟩ := ih (fun x hx => hy x (List.mem_cons_of_mem _ hx)) k2 t2 post h.2
        exact ⟨post2, by rw [h.1]; rfl⟩
      · rw [h2] at h
        simp only [List.cons_append, List.cons.injEq] at h
        have := hy b (List.mem_cons_self _ _)
        rw [← h.1] at this
        exact absurd this (by decide)

/-- The encoder neither makes nor breaks a CSI sequence. -/
theorem containsCSI_encodedTextFrom (x : GoString) :
    ∀ k : Nat, ContainsCSI (encodedTextFrom k x) ↔ ContainsCSI x := by
  intro k
  constructor
  · induction x generalizing k with
    | nil =>
      rintro ⟨pre, m, post, hm, hs⟩
      have h0 : encodedTextFrom k [] = [] := by cases k <;> rfl
      rw [h0] at hs
      exact absurd (List.append_eq_nil.1 (List.append_eq_nil.1 hs.symm).2).1 (isCSI_ne_nil m hm)
    | cons c t ih =>
      rintro ⟨pre, m, post, hm, hs⟩
      have hcons : ContainsCSI t → ContainsCSI (c :: t) := by
        rintro ⟨p, m2, q, hm2, rfl⟩
        exact ⟨c :: p, m2, q, hm2, rfl⟩
      obtain ⟨mt, rfl⟩ := isCSI_head m hm
      rcases encodedTextFrom_cons k c t with ⟨k2, h2⟩ | ⟨_, h2⟩
      · rw [h2] at hs
        cases pre with
        | nil =>
          simp only [List.nil_append, List.cons_append, List.cons.injEq] at hs
          obtain ⟨post2, rfl⟩ := encodedTextFrom_eq_ascii_append mt
            (fun x hx => isCSI_ascii _ hm x (List.mem_cons_of_mem _ hx)) k2 t post hs.2
          exact ⟨[], 0x1b :: mt, post2, hm, by rw [hs.1]; rfl⟩
        | cons p pre2 =>
          simp only [List.cons_append, List.cons.injEq] at hs
          exact hcons (ih k2 ⟨pre2, 0x1b :: mt, post, hm, hs.2⟩)
      · rw [h2] at hs
        match pre, hs with
        | [], hs => simp at hs
        | [_], hs => simp at hs
        | [_, _], hs => simp at hs
        | _ :: _ :: _ :: pre2, hs =>
          simp only [List.cons_append, List.cons.injEq] at hs
          exact hcons (ih 0 ⟨pre2, 0x1b :: mt, post, hm, hs.2.2.2⟩)
  · rintro ⟨pre, m, post, hm, rfl⟩
    obtain ⟨w, k2, h2⟩ := encodedTextFrom_append pre k (m ++ post)
    obtain ⟨k3, h3⟩ := encodedTextFrom_ascii_append m (isCSI_ascii m hm) k2 post
    exact ⟨w, m, encodedTextFrom k3 post, hm, by rw [h2, h3]⟩

theorem containsCSI_encodedText (x : GoString) : ContainsCSI (encodedText x) ↔ ContainsCSI x :=
  containsCSI_encodedTextFrom x 0

/-- A CSI sequence of a text that begins without an `ESC` byte lies in the
rest of the text. -/
theorem containsCSI_append_iff (a z : GoString) (h : (0x1b : UInt8) ∉ a) :
    ContainsCSI (a ++ z) ↔ ContainsCSI z := by
  constructor
  · rintro ⟨pre, m, post, hm, hs⟩
    rcases List.append_eq_append_iff.1 hs with ⟨a2, h1, h2⟩ | ⟨c2, h1, h2⟩
    · exact ⟨a2, m, post, hm, h2⟩
    · cases c2 with
      | nil => exact ⟨[], m, post, hm, by simpa using h2.symm⟩
      | cons e c3 =>
        obtain ⟨mt, rfl⟩ := isCSI_head m hm
        simp only [List.cons_append, List.cons.injEq] at h2
        exact absurd (by rw [h1, ← h2.1]; simp) h
  · rintro ⟨pre, m, post, hm, rfl⟩
    exact ⟨a ++ pre, m, post, hm, by simp⟩

theorem isCoreVersion_ascii (v : GoString) (h : IsCoreVersion v) : ∀ c ∈ v, c < 0x80 := by
  obtain ⟨a, b, c, _, _, _, ha, hb, hc, rfl⟩ := h
  have hd := isDigit_lt
  intro x hx
  simp only [List.mem_cons, List.mem_append] at hx
  rcases hx with rfl | h | rfl | h | rfl | h
  · decide
  · exact hd _ (ha _ h)
  · decide
  · exact hd _ (hb _ h)
  · decide
  · exact hd _ (hc _ h)

/-! ## The handlers -/

theorem authenticate_ok (s : server) (w : Exchange) (r : Request) (h : Authenticated s r) :
    s.authenticate w r = (w, true) := by
  unfold server.authenticate
  dsimp only
  rw [if_neg h.1, if_neg (not_not.2 h.2)]

theorem authenticate_denied (s : server) (w : Exchange) (r : Request)
    (h : r.Header.Get (goStr "X-Api-Key") = [] ∨ r.Header.Get (goStr "X-Api-Key") ≠ s.cfg.APIKey) :
    s.authenticate w r =
      (s.respond w 401 [(goStr "detail",
        if r.Header.Get (goStr "X-Api-Key") = [] then goStr "missing api key"
        else goStr "invalid api key")], false) := by
  unfold server.authenticate
  by_cases h0 : r.Header.Get (goStr "X-Api-Key") = []
  · simp only [h0, if_true, StatusUnauthorized]
  · rcases h with h | h
    · exact absurd h h0
    · simp only [h0, if_false, h, ne_eq, not_false_eq_true, if_true, StatusUnauthorized]

theorem handleCoreUpdate_rejected (s : server) (p : Platform) (w : Exchange) (r : Request)
    (v e : GoString) (ha : Authenticated s r)
    (hd : Decode (goStr "core_version") (MaxBytesReader r.Body maxBodyBytes) = some v)
    (hv : coreUpdateRequest.validate ⟨v⟩ = .error e) :
    s.handleCoreUpdate p w r = s.respond w 400 [(goStr "detail", e)] := by
  unfold server.handleCoreUpdate
  simp only [authenticate_ok s w r ha, Bool.not_true, Bool.false_eq_true, if_false, hd, hv,
    StatusBadRequest]

theorem handleCoreUpdate_accepted (s : server) (p : Platform) (w : Exchange) (r : Request)
    (v : GoString) (ha : Authenticated s r)
    (hd : Decode (goStr "core_version") (MaxBytesReader r.Body maxBodyBytes) = some v)
    (hv : coreUpdateRequest.validate ⟨v⟩ = .ok ()) :
    s.handleCoreUpdate p w r =
      let inv : Invocation := ⟨s.cfg.AppName, [goStr "core-update", goStr "--version", v]⟩
      let w2 : Exchange := { w with started := w.started ++ [inv] }
      if (p.host inv).err = none then
        s.respond w2 200 [(goStr "detail", goStr "node core updated successfully")]
      else if cleanANSI (p.host inv).stderr ≠ [] then
        s.respond w2 404 [(goStr "detail",
          goStr "core-update failed for version " ++ v ++ goStr ": "
            ++ cleanANSI (p.host inv).stderr)]
      else
        s.respond w2 404 [(goStr "detail",
          goStr "core-update failed for version " ++ v
            ++ goStr ". Version may not exist or network error occurred.")] := by
  unfold server.handleCoreUpdate
  simp only [authenticate_ok s w r ha, Bool.not_true, Bool.false_eq_true, if_false, hd, hv,
    StatusOK, StatusNotFound, runCommand]
  cases he : (p.host ⟨s.cfg.AppName, [goStr "core-update", goStr "--version", v]⟩).err with
  | none => simp
  | some e => simp

theorem geofiles_validate_ok_iff (ul : GoString → GoString) (r region : GoString) :
    geofilesRequest.validate ul ⟨r⟩ = .ok region ↔
      ToLower ul r ∈ regions ∧ r ≠ [] ∧ region = ToLower ul r := by
  unfold geofilesRequest.validate
  by_cases h0 : r = []
  · subst h0
    simp
  · simp only [h0, if_false, ne_eq, not_false_eq_true, true_and]
    by_cases hm : geofileRegionRegexp.MatchString (ToLower ul r) = true
    · simp only [hm, Bool.not_true, Bool.false_eq_true, if_false, Except.ok.injEq,
        (region_match_iff _).1 hm, true_and]
      exact eq_comm
    · have hm2 : geofileRegionRegexp.MatchString (ToLower ul r) = false := by simpa using hm
      simp only [hm2, Bool.not_false, if_true, reduceCtorEq, false_iff, not_and]
      intro h
      exact absurd ((region_match_iff _).2 h) hm

theorem toLower_nil (ul : GoString → GoString) : ToLower ul [] = [] := by
  simp [ToLower]

theorem geofiles_validate_error (ul : GoString → GoString) (r : GoString) (h0 : r ≠ [])
    (h : ToLower ul r ∉ regions) :
    geofilesRequest.validate ul ⟨r⟩ = .error (goStr "Unsupported region " ++ r) := by
  unfold geofilesRequest.validate
  have hm : geofileRegionRegexp.MatchString (ToLower ul r) = false := by
    cases hm : geofileRegionRegexp.MatchString (ToLower ul r) with
    | false => rfl
    | true => exact absurd ((region_match_iff _).1 hm) h
  simp only [h0, if_false, hm, Bool.not_false, if_true]

theorem handleGeofiles_rejected (s : server) (p : Platform) (w : Exchange) (r : Request)
    (v e : GoString) (ha : Authenticated s r)
    (hd : Decode (goStr "region") (MaxBytesReader r.Body maxBodyBytes) = some v)
    (hv : geofilesRequest.validate p.unicodeLower ⟨v⟩ = .error e) :
    s.handleGeofiles p w r = s.respond w 400 [(goStr "detail", e)] := by
  unfold server.handleGeofiles
  simp only [authenticate_ok s w r ha, Bool.not_true, Bool.false_eq_true, if_false, hd, hv,
    StatusBadRequest]

theorem handleGeofiles_accepted (s : server) (p : Platform) (w : Exchange) (r : Request)
    (v region : GoString) (ha : Authenticated s r)
    (hd : Decode (goStr "region") (MaxBytesReader r.Body maxBodyBytes) = some v)
    (hv : geofilesRequest.validate p.unicodeLower ⟨v⟩ = .ok region) :
    s.handleGeofiles p w r =
      let inv : Invocation := ⟨s.cfg.AppName, [goStr "geofiles", goStr "--" ++ region]⟩
      let w2 : Exchange := { w with started := w.started ++ [inv] }
      if (p.host inv).err = none then
        s.respond w2 200 [(goStr "detail", goStr "geofiles updated successfully")]
      else s.respond w2 500 [(goStr "detail", goStr "geofiles update failed on server")] := by
  unfold server.handleGeofiles
  simp only [authenticate_ok s w r ha, Bool.not_true, Bool.false_eq_true, if_false, hd, hv,
    StatusOK, StatusInternalServerError, runCommand]
  cases he : (p.host ⟨s.cfg.AppName, [goStr "geofiles", goStr "--" ++ region]⟩).err with
  | none => simp
  | some e => simp

theorem handleUpdate_authenticated (s : server) (p : Platform) (w : Exchange) (r : Request)
    (ha : Authenticated s r) :
    s.handleUpdate p w r =
      let inv : Invocation := ⟨s.cfg.AppName, [goStr "update", goStr "--no-update-service"]⟩
      let w2 : Exchange := { w with started := w.started ++ [inv] }
      if (p.host inv).err = none then
        s.respond w2 200 [(goStr "detail", goStr "node updated successfully")]
      else s.respond w2 500 [(goStr "detail", goStr "update failed on server")] := by
  unfold server.handleUpdate
  simp only [authenticate_ok s w r ha, Bool.not_true, Bool.false_eq_true, if_false,
    StatusOK, StatusInternalServerError, runCommand]
  cases he : (p.host ⟨s.cfg.AppName, [goStr "update", goStr "--no-update-service"]⟩).err with
  | none => simp
  | some e => simp

/-- The messages of `coreUpdateRequest.validate` reach the reader of the
response unchanged. -/
theorem coreVersion_error_encoded (v e : GoString)
    (h : coreUpdateRequest.validate ⟨v⟩ = .error e) : encodedText e = e := by
  unfold coreUpdateRequest.validate at h
  split_ifs at h
  · cases h; exact enc_required
  · cases h; exact enc_pattern

/-! ## The claims -/

/-- C1: on each of the four routes a request whose `x-api-key` header is
missing or empty, or differs from the configured key, is answered with the
single response 401, with detail "missing api key" for an empty header value
and "invalid api key" otherwise, and no external program is started, whatever
the body, the configuration and the host are. -/
theorem C1_unauthorized_never_executes (s : server) (p : Platform) (route : Route) (r : Request)
    (h : r.Header.Get (goStr "X-Api-Key") = [] ∨ r.Header.Get (goStr "X-Api-Key") ≠ s.cfg.APIKey) :
    s.serve p route r =
      ⟨[⟨401, [(goStr "detail",
          if r.Header.Get (goStr "X-Api-Key") = [] then goStr "missing api key"
          else goStr "invalid api key")]⟩], []⟩ := by
  cases route <;>
    simp only [server.serve, server.handleRoot, server.handleUpdate, server.handleCoreUpdate,
      server.handleGeofiles, authenticate_denied s Exchange.new r h, Bool.not_false, if_true] <;>
    simp [server.respond, Exchange.new] <;>
    split_ifs <;> simp

/-- C1 at a request to `POST /node/core_update` carrying the wrong key and a
valid body, and at one without the header. -/
theorem C1_unauthorized_never_executes_witness :
    (headerWith (goStr "wrong")).Get (goStr "X-Api-Key") ≠ exampleServer.cfg.APIKey ∧
    exampleServer.serve (platformReturning ⟨[], none⟩) .coreUpdate
        ⟨headerWith (goStr "wrong"), goStr "\x7b\"core_version\":\"v2.0.1\"\x7d"⟩ =
      ⟨[⟨401, [(goStr "detail", goStr "invalid api key")]⟩], []⟩ ∧
    exampleServer.serve (platformReturning ⟨[], none⟩) .update ⟨headerEmpty, []⟩ =
      ⟨[⟨401, [(goStr "detail", goStr "missing api key")]⟩], []⟩ :=
  ⟨by decide,
   C1_unauthorized_never_executes exampleServer (platformReturning ⟨[], none⟩) .coreUpdate
     ⟨headerWith (goStr "wrong"), goStr "\x7b\"core_version\":\"v2.0.1\"\x7d"⟩
     (Or.inr (by decide)),
   C1_unauthorized_never_executes exampleServer (platformReturning ⟨[], none⟩) .update
     ⟨headerEmpty, []⟩ (Or.inl rfl)⟩

/-- C2: `coreUpdateRequest.validate` accepts a string exactly when it is the
byte `v` followed by three non-empty groups of ASCII decimal digits separated
by single dots and nothing else; `v1.2`, `1.2.3`, `v1.2.3-beta` and the empty
string are rejected, `v1.2.3` is accepted; and an authenticated core-update
request whose body decodes to a rejected value is answered with 400 (the
detail being the message of the validation error) without any program being
started. -/
theorem C2_core_version_validation :
    (∀ s : GoString, coreUpdateRequest.validate ⟨s⟩ = .ok () ↔ IsCoreVersion s) ∧
    coreUpdateRequest.validate ⟨goStr "v1.2"⟩ =
      .error (goStr "core_version must match pattern vX.X.X") ∧
    coreUpdateRequest.validate ⟨goStr "1.2.3"⟩ =
      .error (goStr "core_version must match pattern vX.X.X") ∧
    coreUpdateRequest.validate ⟨goStr "v1.2.3-beta"⟩ =
      .error (goStr "core_version must match pattern vX.X.X") ∧
    coreUpdateRequest.validate ⟨goStr ""⟩ = .error (goStr "core_version is required") ∧
    coreUpdateRequest.validate ⟨goStr "v1.2.3"⟩ = .ok () ∧
    (∀ (srv : server) (p : Platform) (r : Request) (v : GoString),
      Authenticated srv r →
      Decode (goStr "core_version") (MaxBytesReader r.Body maxBodyBytes) = some v →
      coreUpdateRequest.validate ⟨v⟩ ≠ .ok () →
      ∃ e : GoString, coreUpdateRequest.validate ⟨v⟩ = .error e ∧
        srv.serve p .coreUpdate r = ⟨[⟨400, [(goStr "detail", e)]⟩], []⟩) := by
  refine ⟨coreVersion_validate_iff, by rfl, by rfl, by rfl, by rfl, by rfl, ?_⟩
  intro srv p r v ha hd hv
  cases he : coreUpdateRequest.validate ⟨v⟩ with
  | ok u => exact absurd he hv
  | error e =>
    refine ⟨e, rfl, ?_⟩
    simp only [server.serve]
    rw [handleCoreUpdate_rejected srv p Exchange.new r v e ha hd he]
    simp [server.respond, Exchange.new, coreVersion_error_encoded v e he]

/-- C2 at the authenticated request with body `{"core_version":"v1.2"}`. -/
theorem C2_core_version_validation_witness :
    Authenticated exampleServer ⟨headerWith (goStr "secret"), goStr "\x7b\"core_version\":\"v1.2\"\x7d"⟩ ∧
    Decode (goStr "core_version")
      (MaxBytesReader (goStr "\x7b\"core_version\":\"v1.2\"\x7d") maxBodyBytes) = some (goStr "v1.2") ∧
    coreUpdateRequest.validate ⟨goStr "v1.2"⟩ ≠ .ok () ∧
    ∃ e : GoString, coreUpdateRequest.validate ⟨goStr "v1.2"⟩ = .error e ∧
      exampleServer.serve (platformReturning ⟨[], none⟩) .coreUpdate
        ⟨headerWith (goStr "secret"), goStr "\x7b\"core_version\":\"v1.2\"\x7d"⟩ =
        ⟨[⟨400, [(goStr "detail", e)]⟩], []⟩ :=
  ⟨⟨by decide, by decide⟩, by decide, (by intro h; cases h),
   C2_core_version_validation.2.2.2.2.2.2 exampleServer (platformReturning ⟨[], none⟩)
     ⟨headerWith (goStr "secret"), goStr "\x7b\"core_version\":\"v1.2\"\x7d"⟩ (goStr "v1.2")
     ⟨by decide, by decide⟩ (by decide) (by intro h; cases h)⟩

/-- C3: `geofilesRequest.validate` accepts a region exactly when its
lower-cased form is one of `iran`, `russia`, `china`, and then returns that
lower-cased form; `Iran` is accepted, `IRAN ` (trailing space) and the empty
string are rejected, and the error for a rejected non-empty region is
"Unsupported region " followed by the region as it was given, not
lower-cased (so for `iraq`, and for `IraQ`). This holds whatever the Unicode
case tables are. -/
theorem C3_region_validation (ul : GoString → GoString) :
    (∀ r : GoString,
      (∃ region, geofilesRequest.validate ul ⟨r⟩ = .ok region) ↔ ToLower ul r ∈ regions) ∧
    (∀ r region : GoString,
      geofilesRequest.validate ul ⟨r⟩ = .ok region → region = ToLower ul r) ∧
    geofilesRequest.validate ul ⟨goStr "Iran"⟩ = .ok (goStr "iran") ∧
    geofilesRequest.validate ul ⟨goStr "IRAN "⟩ = .error (goStr "Unsupported region IRAN ") ∧
    geofilesRequest.validate ul ⟨goStr ""⟩ =
      .error (goStr "region is required (iran, russia, china)") ∧
    geofilesRequest.validate ul ⟨goStr "iraq"⟩ = .error (goStr "Unsupported region iraq") ∧
    geofilesRequest.validate ul ⟨goStr "IraQ"⟩ = .error (goStr "Unsupported region IraQ") ∧
    (∀ r : GoString, r ≠ [] → (geofilesRequest.validate ul ⟨r⟩).isOk = false →
      geofilesRequest.validate ul ⟨r⟩ = .error (goStr "Unsupported region " ++ r) ∧
        r <:+ goStr "Unsupported region " ++ r) := by
  refine ⟨?_, ?_, by rfl, by rfl, by rfl, by rfl, by rfl, ?_⟩
  · intro r
    constructor
    · rintro ⟨region, h⟩
      exact ((geofiles_validate_ok_iff ul r region).1 h).1
    · intro h
      have h0 : r ≠ [] := by
        rintro rfl
        rw [toLower_nil] at h
        revert h
        decide
      exact ⟨ToLower ul r, (geofiles_validate_ok_iff ul r _).2 ⟨h, h0, rfl⟩⟩
  · intro r region h
    exact ((geofiles_validate_ok_iff ul r region).1 h).2.2
  · intro r h0 h
    refine ⟨geofiles_validate_error ul r h0 ?_, List.suffix_append _ _⟩
    intro hmem
    rw [(geofiles_validate_ok_iff ul r _).2 ⟨hmem, h0, rfl⟩] at h
    cases h

/-- C3 at the region `iraq`. -/
theorem C3_region_validation_witness :
    goStr "iraq" ≠ [] ∧
    (geofilesRequest.validate (fun s => s) ⟨goStr "iraq"⟩).isOk = false ∧
    geofilesRequest.validate (fun s => s) ⟨goStr "iraq"⟩ =
      .error (goStr "Unsupported region " ++ goStr "iraq") ∧
    goStr "iraq" <:+ goStr "Unsupported region " ++ goStr "iraq" :=
  ⟨by decide, by rfl,
   (C3_region_validation (fun s => s)).2.2.2.2.2.2.2 (goStr "iraq") (by decide) (by rfl)⟩

/-- C6: the responses of `POST /node/update` and `POST /node/geofiles` do not
depend on what a failing program wrote to standard error or on its exit code:
on two hosts where the program fails, in whatever way, an authenticated (and,
for geofiles, valid) request gets the same exchange, whose single response is
500 with the fixed detail "update failed on server", respectively "geofiles
update failed on server". -/
theorem C6_failure_detail_is_fixed :
    (∀ (srv : server) (p1 p2 : Platform) (r : Request),
      Authenticated srv r →
      (p1.host ⟨srv.cfg.AppName, [goStr "update", goStr "--no-update-service"]⟩).err ≠ none →
      (p2.host ⟨srv.cfg.AppName, [goStr "update", goStr "--no-update-service"]⟩).err ≠ none →
      srv.serve p1 .update r = srv.serve p2 .update r ∧
      srv.serve p1 .update r =
        ⟨[⟨500, [(goStr "detail", goStr "update failed on server")]⟩],
         [⟨srv.cfg.AppName, [goStr "update", goStr "--no-update-service"]⟩]⟩) ∧
    (∀ (srv : server) (p1 p2 : Platform) (r : Request) (v region : GoString),
      p1.unicodeLower = p2.unicodeLower →
      Authenticated srv r →
      Decode (goStr "region") (MaxBytesReader r.Body maxBodyBytes) = some v →
      geofilesRequest.validate p1.unicodeLower ⟨v⟩ = .ok region →
      (p1.host ⟨srv.cfg.AppName, [goStr "geofiles", goStr "--" ++ region]⟩).err ≠ none →
      (p2.host ⟨srv.cfg.AppName, [goStr "geofiles", goStr "--" ++ region]⟩).err ≠ none →
      srv.serve p1 .geofiles r = srv.serve p2 .geofiles r ∧
      srv.serve p1 .geofiles r =
        ⟨[⟨500, [(goStr "detail", goStr "geofiles update failed on server")]⟩],
         [⟨srv.cfg.AppName, [goStr "geofiles", goStr "--" ++ region]⟩]⟩) := by
  constructor
  · intro srv p1 p2 r ha h1 h2
    have e1 := handleUpdate_authenticated srv p1 Exchange.new r ha
    have e2 := handleUpdate_authenticated srv p2 Exchange.new r ha
    simp only [if_neg h1] at e1
    simp only [if_neg h2] at e2
    simp only [server.serve]
    rw [e1, e2]
    simp [server.respond, Exchange.new]
  · intro srv p1 p2 r v region hul ha hd hv h1 h2
    have e1 := handleGeofiles_accepted srv p1 Exchange.new r v region ha hd hv
    have e2 := handleGeofiles_accepted srv p2 Exchange.new r v region ha hd (hul ▸ hv)
    simp only [if_neg h1] at e1
    simp only [if_neg h2] at e2
    simp only [server.serve]
    rw [e1, e2]
    simp [server.respond, Exchange.new]

/-- C6 at two hosts failing differently (exit code 1 with a secret in the
standard error, and a program killed without output), for the update route
and for the geofiles route with body `{"region":"China"}`. -/
theorem C6_failure_detail_is_fixed_witness :
    (exampleServer.serve (platformReturning ⟨goStr "db password: hunter2", some (.exitError 1)⟩)
        .update ⟨headerWith (goStr "secret"), []⟩ =
      exampleServer.serve (platformReturning ⟨[], some (.exitError (-1))⟩)
        .update ⟨headerWith (goStr "secret"), []⟩ ∧
    exampleServer.serve (platformReturning ⟨goStr "db password: hunter2", some (.exitError 1)⟩)
        .update ⟨headerWith (goStr "secret"), []⟩ =
      ⟨[⟨500, [(goStr "detail", goStr "update failed on server")]⟩],
       [⟨exampleServer.cfg.AppName, [goStr "update", goStr "--no-update-service"]⟩]⟩) ∧
    (exampleServer.serve (platformReturning ⟨goStr "db password: hunter2", some (.exitError 1)⟩)
        .geofiles ⟨headerWith (goStr "secret"), goStr "\x7b\"region\":\"China\"\x7d"⟩ =
      exampleServer.serve (platformReturning ⟨[], some .other⟩)
        .geofiles ⟨headerWith (goStr "secret"), goStr "\x7b\"region\":\"China\"\x7d"⟩ ∧
    exampleServer.serve (platformReturning ⟨goStr "db password: hunter2", some (.exitError 1)⟩)
        .geofiles ⟨headerWith (goStr "secret"), goStr "\x7b\"region\":\"China\"\x7d"⟩ =
      ⟨[⟨500, [(goStr "detail", goStr "geofiles update failed on server")]⟩],
       [⟨exampleServer.cfg.AppName, [goStr "geofiles", goStr "--" ++ goStr "china"]⟩]⟩) :=
  ⟨C6_failure_detail_is_fixed.1 exampleServer
    (platformReturning ⟨goStr "db password: hunter2", some (.exitError 1)⟩)
    (platformReturning ⟨[], some (.exitError (-1))⟩)
    ⟨headerWith (goStr "secret"), []⟩ ⟨by decide, by decide⟩
    (by intro h; cases h) (by intro h; cases h),
   C6_failure_detail_is_fixed.2 exampleServer
    (platformReturning ⟨goStr "db password: hunter2", some (.exitError 1)⟩)
    (platformReturning ⟨[], some .other⟩)
    ⟨headerWith (goStr "secret"), goStr "\x7b\"region\":\"China\"\x7d"⟩
    (goStr "China") (goStr "china") rfl ⟨by decide, by decide⟩ (by decide) (by rfl)
    (by intro h; cases h) (by intro h; cases h)⟩

theorem serve_unauthorized (s : server) (p : Platform) (route : Route) (r : Request)
    (h : ¬ Authenticated s r) :
    ∃ d : GoString, s.serve p route r = ⟨[⟨401, [(goStr "detail", d)]⟩], []⟩ := by
  have h2 : r.Header.Get (goStr "X-Api-Key") = [] ∨
      r.Header.Get (goStr "X-Api-Key") ≠ s.cfg.APIKey := by
    by_cases h0 : r.Header.Get (goStr "X-Api-Key") = []
    · exact Or.inl h0
    · exact Or.inr (fun h1 => h ⟨h0, h1⟩)
  refine ⟨if r.Header.Get (goStr "X-Api-Key") = [] then goStr "missing api key"
    else goStr "invalid api key", ?_⟩
  cases route <;>
    simp only [server.serve, server.handleRoot, server.handleUpdate, server.handleCoreUpdate,
      server.handleGeofiles, authenticate_denied s Exchange.new r h2, Bool.not_false, if_true] <;>
    simp [server.respond, Exchange.new] <;>
    split_ifs <;> simp

theorem handleCoreUpdate_decode_none (s : server) (p : Platform) (w : Exchange) (r : Request)
    (ha : Authenticated s r)
    (hd : Decode (goStr "core_version") (MaxBytesReader r.Body maxBodyBytes) = none) :
    s.handleCoreUpdate p w r = s.respond w 400 [(goStr "detail", goStr "Invalid JSON body")] := by
  unfold server.handleCoreUpdate
  simp only [authenticate_ok s w r ha, Bool.not_true, Bool.false_eq_true, if_false, hd,
    StatusBadRequest]

theorem handleGeofiles_decode_none (s : server) (p : Platform) (w : Exchange) (r : Request)
    (ha : Authenticated s r)
    (hd : Decode (goStr "region") (MaxBytesReader r.Body maxBodyBytes) = none) :
    s.handleGeofiles p w r = s.respond w 400 [(goStr "detail", goStr "Invalid JSON body")] := by
  unfold server.handleGeofiles
  simp only [authenticate_ok s w r ha, Bool.not_true, Bool.false_eq_true, if_false, hd,
    StatusBadRequest]

theorem decode_none_of_readValue_none (field : GoString) (r : BodyStream)
    (h : readValue r = none) : Decode field r = none := by
  unfold Decode
  rw [h]

theorem readValueLoop_spaces :
    ∀ (n scanp : Nat),
      readValueLoop .tooLarge scanner.reset scanp (List.replicate n 0x20) = none := by
  intro n
  induction n with
  | zero => intro scanp; rfl
  | succ n ih =>
    intro scanp
    rw [List.replicate_succ, readValueLoop]
    have h1 : scanner.reset.stepByte 0x20 = (scanner.reset, .scanSkipSpace) := by decide
    rw [h1]
    exact ih (scanp + 1)

theorem readValue_blankBody : readValue (MaxBytesReader blankBody maxBodyBytes) = none := by
  unfold readValue MaxBytesReader blankBody
  have h1 : List.take maxBodyBytes (List.replicate 1048577 (0x20 : UInt8)) =
      List.replicate 1048576 0x20 := by
    rw [List.take_replicate]; rfl
  have h2 : (List.replicate 1048577 (0x20 : UInt8)).length > maxBodyBytes := by
    rw [List.length_replicate]; decide
  simp only [h1, if_pos h2]
  exact readValueLoop_spaces _ _

theorem escClosed_iff (s : GoString) : EscClosed s ↔ escClosedB s = true := by
  induction s with
  | nil =>
    simp only [escClosedB, iff_true]
    intro pre post h
    simp at h
  | cons c t ih =>
    simp only [escClosedB, Bool.and_eq_true, Bool.or_eq_true, decide_eq_true_eq, ← ih]
    constructor
    · intro h
      refine ⟨?_, escClosed_tail c t h⟩
      by_cases hc : c = 0x1b
      · right
        subst hc
        obtain ⟨m, rest, hm, hs⟩ := h [] t rfl
        have := (csiLen_some_iff _ m.length).2 ⟨m, rest, hm, hs, rfl⟩
        rw [this]; rfl
      · exact Or.inl hc
    · rintro ⟨h1, h2⟩ pre post hs
      cases pre with
      | nil =>
        simp only [List.nil_append, List.cons.injEq] at hs
        obtain ⟨hc, ht⟩ := hs
        subst hc
        subst ht
        rcases h1 with h1 | h1
        · exact absurd rfl h1
        · cases hl : csiLen (0x1b :: t) with
          | none => rw [hl] at h1; cases h1
          | some n =>
            obtain ⟨m, rest, hm, hs, _⟩ := (csiLen_some_iff _ n).1 hl
            exact ⟨m, rest, hm, hs⟩
      | cons x pre =>
        simp only [List.cons_append, List.cons.injEq] at hs
        exact h2 pre post hs.2

theorem stripped_unique (s out : GoString) (h : Stripped s out) : out = cleanANSI s := by
  induction h with
  | done => exact cleanANSI_nil.symm
  | drop m rest out hm _ ih => rw [cleanANSI_csi_append m rest hm]; exact ih
  | keep c t out hn _ ih =>
    rw [cleanANSI_cons_of_none c t ((csiLen_none_iff _).2 hn), ih]

theorem isDigit_ne_esc (x : UInt8) (h : isDigit x = true) : x ≠ 0x1b := by
  rintro rfl
  revert h
  decide

theorem no_esc_of_isCoreVersion (v : GoString) (h : IsCoreVersion v) : (0x1b : UInt8) ∉ v := by
  obtain ⟨a, b, c, _, _, _, ha, hb, hc, rfl⟩ := h
  intro hmem
  simp only [List.mem_cons, List.mem_append] at hmem
  rcases hmem with h | h | h | h | h | h
  · revert h; decide
  · exact isDigit_ne_esc _ (ha _ h) rfl
  · revert h; decide
  · exact isDigit_ne_esc _ (hb _ h) rfl
  · revert h; decide
  · exact isDigit_ne_esc _ (hc _ h) rfl

/-- C4, refuted as stated: stripping `ESC [ ESC [ m m` once leaves `ESC [ m`,
and stripping that again leaves the empty string, so stripping twice is not
stripping once. -/
theorem C4_not_idempotent :
    cleanANSI nestedCSI = goStr "\x1b[m" ∧
    cleanANSI (cleanANSI nestedCSI) = [] ∧
    cleanANSI (cleanANSI nestedCSI) ≠ cleanANSI nestedCSI := by
  decide

/-- C4, amended: stripping twice equals stripping once exactly for the texts
whose stripped form contains no CSI sequence; this is the case for every text
in which each `ESC` byte starts a CSI sequence. -/
theorem C4_idempotent_when_clean :
    (∀ s : GoString, cleanANSI (cleanANSI s) = cleanANSI s ↔ ¬ ContainsCSI (cleanANSI s)) ∧
    (∀ s : GoString, EscClosed s → cleanANSI (cleanANSI s) = cleanANSI s) := by
  refine ⟨fun s => cleanANSI_fixed_iff (cleanANSI s), ?_⟩
  intro s h
  exact (cleanANSI_fixed_iff _).2 (not_containsCSI_of_no_esc _ (cleanANSI_no_esc s h))

/-- C4 amended, at the coloured text `ESC[31mversion not foundESC[0m`. -/
theorem C4_idempotent_when_clean_witness :
    EscClosed (goStr "\x1b[31mversion not found\x1b[0m") ∧
    cleanANSI (cleanANSI (goStr "\x1b[31mversion not found\x1b[0m")) =
      cleanANSI (goStr "\x1b[31mversion not found\x1b[0m") :=
  ⟨(escClosed_iff _).2 (by decide),
   C4_idempotent_when_clean.2 (goStr "\x1b[31mversion not found\x1b[0m")
     ((escClosed_iff _).2 (by decide))⟩

/-- C7, refuted as stated: the body `oversizedBody` is longer than 1 MiB (a
complete core-update object followed by 1 MiB of padding), and the
authenticated request carrying it is answered with 200 after the program has
been started with the version of the object; likewise for
`oversizedGarbageBody` (a geofiles object followed by 1 MiB of the letter
`A`) on `POST /node/geofiles`. -/
theorem C7_oversized_body_accepted :
    oversizedBody.length > maxBodyBytes ∧
    Authenticated exampleServer ⟨headerWith (goStr "secret"), oversizedBody⟩ ∧
    exampleServer.serve (platformReturning ⟨[], none⟩) .coreUpdate
        ⟨headerWith (goStr "secret"), oversizedBody⟩ =
      ⟨[⟨200, [(goStr "detail", goStr "node core updated successfully")]⟩],
       [⟨goStr "pg-node", [goStr "core-update", goStr "--version", goStr "v1.2.3"]⟩]⟩ ∧
    oversizedGarbageBody.length > maxBodyBytes ∧
    exampleServer.serve (platformReturning ⟨[], none⟩) .geofiles
        ⟨headerWith (goStr "secret"), oversizedGarbageBody⟩ =
      ⟨[⟨200, [(goStr "detail", goStr "geofiles updated successfully")]⟩],
       [⟨goStr "pg-node", [goStr "geofiles", goStr "--iran"]⟩]⟩ := by
  refine ⟨?_, ⟨by decide, by decide⟩, by decide!, ?_, by decide!⟩
  · unfold oversizedBody
    rw [List.length_append, List.length_replicate]
    decide
  · unfold oversizedGarbageBody
    rw [List.length_append, List.length_replicate]
    decide

/-- When `readValue` finds the end of the first JSON value at `n` with more
bytes of the stream outstanding, it finds the same end on every stream that
has the same bytes up to position `n`. -/
theorem readValueLoop_take :
    ∀ (l : GoString) (s : scanner) (scanp n : Nat),
      readValueLoop .tooLarge s scanp l = some n →
      scanp ≤ n ∧ n ≤ scanp + l.length ∧
      ∀ (l2 : GoString) (final : ReadEnd),
        l2.take (n + 1 - scanp) = l.take (n + 1 - scanp) →
        readValueLoop final s scanp l2 = some n := by
  intro l
  induction l with
  | nil => intro s scanp n h; simp [readValueLoop] at h
  | cons c t ih =>
    intro s scanp n h
    rw [readValueLoop] at h
    have key : ∀ (s1 : scanner), readValueLoop .tooLarge s1 (scanp + 1) t = some n →
        scanp ≤ n ∧ n ≤ scanp + (c :: t).length ∧
        ∀ (l2 : GoString) (final : ReadEnd),
          l2.take (n + 1 - scanp) = (c :: t).take (n + 1 - scanp) →
          ∃ t2, l2 = c :: t2 ∧ readValueLoop final s1 (scanp + 1) t2 = some n := by
      intro s1 h1
      obtain ⟨h2, h3, h4⟩ := ih s1 (scanp + 1) n h1
      refine ⟨by omega, by simp; omega, ?_⟩
      intro l2 final hl
      obtain ⟨k, hk⟩ : ∃ k, n + 1 - scanp = k + 1 := ⟨n - scanp, by omega⟩
      have hk2 : n + 1 - (scanp + 1) = k := by omega
      rw [hk] at hl
      cases l2 with
      | nil => simp at hl
      | cons c2 t2 =>
        simp only [List.take_succ_cons, List.cons.injEq] at hl
        refine ⟨t2, by rw [hl.1], h4 t2 final (by rw [hk2]; exact hl.2)⟩
    have first : ∀ (l2 : GoString) (k : Nat), l2.take (k + 1) = (c :: t).take (k + 1) →
        ∃ t2, l2 = c :: t2 := by
      intro l2 k hl
      cases l2 with
      | nil => simp at hl
      | cons c2 t2 =>
        simp only [List.take_succ_cons, List.cons.injEq] at hl
        exact ⟨t2, by rw [hl.1]⟩
    cases hop : (s.stepByte c).2 with
    | scanEnd =>
      rw [hop] at h
      simp only [Option.some.injEq] at h
      subst h
      refine ⟨le_refl _, by omega, ?_⟩
      intro l2 final hl
      obtain ⟨t2, rfl⟩ := first l2 (scanp + 1 - scanp - 1) (by
        have : scanp + 1 - scanp - 1 + 1 = scanp + 1 - scanp := by omega
        rw [this]; exact hl)
      rw [readValueLoop, hop]
    | scanError => rw [hop] at h; simp at h
    | scanEndObject =>
      rw [hop] at h
      simp only at h
      by_cases he : (stateEndValue (s.stepByte c).1 0x20).2 = .scanEnd
      · rw [if_pos he] at h
        simp only [Option.some.injEq] at h
        subst h
        refine ⟨by omega, by simp, ?_⟩
        intro l2 final hl
        obtain ⟨t2, rfl⟩ := first l2 (scanp + 1 + 1 - scanp - 1) (by
          have : scanp + 1 + 1 - scanp - 1 + 1 = scanp + 1 + 1 - scanp := by omega
          rw [this]; exact hl)
        rw [readValueLoop, hop]
        simp only
        rw [if_pos he]
      · rw [if_neg he] at h
        obtain ⟨h2, h3, h4⟩ := key _ h
        refine ⟨h2, h3, ?_⟩
        intro l2 final hl
        obtain ⟨t2, rfl, h5⟩ := h4 l2 final hl
        rw [readValueLoop, hop]
        simp only
        rw [if_neg he]
        exact h5
    | scanEndArray =>
      rw [hop] at h
      simp only at h
      by_cases he : (stateEndValue (s.stepByte c).1 0x20).2 = .scanEnd
      · rw [if_pos he] at h
        simp only [Option.some.injEq] at h
        subst h
        refine ⟨by omega, by simp, ?_⟩
        intro l2 final hl
        obtain ⟨t2, rfl⟩ := first l2 (scanp + 1 + 1 - scanp - 1) (by
          have : scanp + 1 + 1 - scanp - 1 + 1 = scanp + 1 + 1 - scanp := by omega
          rw [this]; exact hl)
        rw [readValueLoop, hop]
        simp only
        rw [if_pos he]
      · rw [if_neg he] at h
        obtain ⟨h2, h3, h4⟩ := key _ h
        refine ⟨h2, h3, ?_⟩
        intro l2 final hl
        obtain ⟨t2, rfl, h5⟩ := h4 l2 final hl
        rw [readValueLoop, hop]
        simp only
        rw [if_neg he]
        exact h5
    | _ =>
      rw [hop] at h
      simp only at h
      obtain ⟨h2, h3, h4⟩ := key _ h
      refine ⟨h2, h3, ?_⟩
      intro l2 final hl
      obtain ⟨t2, rfl, h5⟩ := h4 l2 final hl
      rw [readValueLoop, hop]
      exact h5

theorem decode_of_same_value (field body body2 : GoString) (n : Nat)
    (hlen : body.length > maxBodyBytes)
    (h : readValue (MaxBytesReader body maxBodyBytes) = some n)
    (h2 : body2.take (n + 1) = body.take (n + 1)) :
    n ≤ maxBodyBytes ∧
    Decode field (MaxBytesReader body2 maxBodyBytes) =
      Decode field (MaxBytesReader body maxBodyBytes) := by
  have h0 := h
  unfold readValue MaxBytesReader at h
  simp only [if_pos hlen] at h
  obtain ⟨_, h4, h5⟩ := readValueLoop_take _ _ _ _ h
  have hn : n ≤ maxBodyBytes := by
    have := List.length_take_le maxBodyBytes body
    omega
  refine ⟨hn, ?_⟩
  have h6 : (body2.take maxBodyBytes).take (n + 1) = (body.take maxBodyBytes).take (n + 1) := by
    rw [List.take_take, List.take_take, Nat.min_comm, ← List.take_take, h2, List.take_take]
  have h7 : (body2.take maxBodyBytes).take n = (body.take maxBodyBytes).take n := by
    have e : ∀ l : GoString, (l.take (n + 1)).take n = l.take n := by
      intro l
      rw [List.take_take, Nat.min_eq_left (Nat.le_succ n)]
    rw [← e (body2.take maxBodyBytes), h6, e]
  have h8 : readValue (MaxBytesReader body2 maxBodyBytes) = some n := by
    unfold readValue MaxBytesReader
    exact h5 _ _ (by simpa using h6)
  unfold Decode
  rw [h8, h0]
  simp only [MaxBytesReader]
  rw [h7]

/-- C7, amended: for an authenticated request to `POST /node/core_update` or
`POST /node/geofiles` whose body is longer than 1 MiB: when the decoder finds
no complete first JSON value within the first 1048576 bytes, the answer is
400 "Invalid JSON body" and no program is started; when it finds one, ending
after `n` bytes, then `n` is at most 1048576 and the exchange is the same for
every body with the same first `n + 1` bytes: what follows the first JSON
value, the part beyond the cap included, is never looked at. -/
theorem C7_oversized_body_handling (srv : server) (p : Platform) (r : Request)
    (route : Route) (hroute : route = .coreUpdate ∨ route = .geofiles)
    (ha : Authenticated srv r) (hlen : r.Body.length > maxBodyBytes) :
    (readValue (MaxBytesReader r.Body maxBodyBytes) = none →
      srv.serve p route r = ⟨[⟨400, [(goStr "detail", goStr "Invalid JSON body")]⟩], []⟩) ∧
    (∀ n : Nat, readValue (MaxBytesReader r.Body maxBodyBytes) = some n →
      n ≤ maxBodyBytes ∧
      ∀ body2 : GoString, body2.take (n + 1) = r.Body.take (n + 1) →
        srv.serve p route ⟨r.Header, body2⟩ = srv.serve p route r) := by
  constructor
  · intro hval
    rcases hroute with rfl | rfl
    · simp only [server.serve]
      rw [handleCoreUpdate_decode_none srv p _ r ha (decode_none_of_readValue_none _ _ hval)]
      simp [server.respond, Exchange.new]
    · simp only [server.serve]
      rw [handleGeofiles_decode_none srv p _ r ha (decode_none_of_readValue_none _ _ hval)]
      simp [server.respond, Exchange.new]
  · intro n hval
    refine ⟨(decode_of_same_value [] r.Body r.Body n hlen hval rfl).1, ?_⟩
    intro body2 h2
    rcases hroute with rfl | rfl
    · have hd := (decode_of_same_value (goStr "core_version") r.Body body2 n hlen hval h2).2
      simp only [server.serve, server.handleCoreUpdate, server.authenticate]
      rw [hd]
    · have hd := (decode_of_same_value (goStr "region") r.Body body2 n hlen hval h2).2
      simp only [server.serve, server.handleGeofiles, server.authenticate]
      rw [hd]

/-- C7 amended, at a body of 1048577 spaces sent to `POST /node/geofiles`, and
at `oversizedBody` sent to `POST /node/core_update`, which is handled like its
first 26 bytes alone. -/
theorem C7_oversized_body_handling_witness :
    Authenticated exampleServer ⟨headerWith (goStr "secret"), blankBody⟩ ∧
    blankBody.length > maxBodyBytes ∧
    readValue (MaxBytesReader blankBody maxBodyBytes) = none ∧
    exampleServer.serve (platformReturning ⟨[], none⟩) .geofiles
        ⟨headerWith (goStr "secret"), blankBody⟩ =
      ⟨[⟨400, [(goStr "detail", goStr "Invalid JSON body")]⟩], []⟩ ∧
    readValue (MaxBytesReader oversizedBody maxBodyBytes) = some 25 ∧
    exampleServer.serve (platformReturning ⟨[], none⟩) .coreUpdate
        ⟨headerWith (goStr "secret"), goStr "\x7b\"core_version\":\"v1.2.3\"\x7d "⟩ =
      exampleServer.serve (platformReturning ⟨[], none⟩) .coreUpdate
        ⟨headerWith (goStr "secret"), oversizedBody⟩ :=
  ⟨⟨by decide, by decide⟩,
   (by unfold blankBody; rw [List.length_replicate]; decide),
   readValue_blankBody,
   (C7_oversized_body_handling exampleServer (platformReturning ⟨[], none⟩)
     ⟨headerWith (goStr "secret"), blankBody⟩ .geofiles (Or.inr rfl) ⟨by decide, by decide⟩
     (by unfold blankBody; rw [List.length_replicate]; decide)).1 readValue_blankBody,
   (by decide),
   ((C7_oversized_body_handling exampleServer (platformReturning ⟨[], none⟩)
     ⟨headerWith (goStr "secret"), oversizedBody⟩ .coreUpdate (Or.inl rfl)
     ⟨by decide, by decide⟩
     (by unfold oversizedBody; rw [List.length_append, List.length_replicate]; decide)).2
       25 (by decide)).2 (goStr "\x7b\"core_version\":\"v1.2.3\"\x7d ") (by decide)⟩

/-- C8: for an authenticated `POST /node/geofiles` whose region is accepted
the program is started exactly once, as `<AppName> geofiles --<region>` with
the lower-cased region, which is one of `iran`, `russia`, `china`; for every
request whatsoever either no program is started or exactly that command line
with one of the three regions is; the body `{"region":"Russia"}` gives the
argument `--russia`. -/
theorem C8_geofiles_arguments :
    (∀ (srv : server) (p : Platform) (r : Request) (v region : GoString),
      Authenticated srv r →
      Decode (goStr "region") (MaxBytesReader r.Body maxBodyBytes) = some v →
      geofilesRequest.validate p.unicodeLower ⟨v⟩ = .ok region →
      region = ToLower p.unicodeLower v ∧ region ∈ regions ∧
      (srv.serve p .geofiles r).started =
        [⟨srv.cfg.AppName, [goStr "geofiles", goStr "--" ++ region]⟩]) ∧
    (∀ (srv : server) (p : Platform) (r : Request),
      (srv.serve p .geofiles r).started = [] ∨
      ∃ region ∈ regions,
        (srv.serve p .geofiles r).started =
          [⟨srv.cfg.AppName, [goStr "geofiles", goStr "--" ++ region]⟩]) ∧
    (exampleServer.serve (platformReturning ⟨[], none⟩) .geofiles
        ⟨headerWith (goStr "secret"), goStr "\x7b\"region\":\"Russia\"\x7d"⟩).started =
      [⟨goStr "pg-node", [goStr "geofiles", goStr "--russia"]⟩] := by
  have key : ∀ (srv : server) (p : Platform) (r : Request) (v region : GoString),
      Authenticated srv r →
      Decode (goStr "region") (MaxBytesReader r.Body maxBodyBytes) = some v →
      geofilesRequest.validate p.unicodeLower ⟨v⟩ = .ok region →
      region = ToLower p.unicodeLower v ∧ region ∈ regions ∧
      (srv.serve p .geofiles r).started =
        [⟨srv.cfg.AppName, [goStr "geofiles", goStr "--" ++ region]⟩] := by
    intro srv p r v region ha hd hv
    obtain ⟨h1, _, h3⟩ := (geofiles_validate_ok_iff _ _ _).1 hv
    refine ⟨h3, h3 ▸ h1, ?_⟩
    simp only [server.serve]
    rw [handleGeofiles_accepted srv p Exchange.new r v region ha hd hv]
    by_cases he : (p.host ⟨srv.cfg.AppName, [goStr "geofiles", goStr "--" ++ region]⟩).err = none
    · simp [he, server.respond, Exchange.new]
    · simp [he, server.respond, Exchange.new]
  refine ⟨key, ?_, by decide!⟩
  intro srv p r
  by_cases ha : Authenticated srv r
  · cases hd : Decode (goStr "region") (MaxBytesReader r.Body maxBodyBytes) with
    | none =>
      left
      simp only [server.serve]
      rw [handleGeofiles_decode_none srv p _ r ha hd]
      simp [server.respond, Exchange.new]
    | some v =>
      cases hv : geofilesRequest.validate p.unicodeLower ⟨v⟩ with
      | error e =>
        left
        simp only [server.serve]
        rw [handleGeofiles_rejected srv p _ r v e ha hd hv]
        simp [server.respond, Exchange.new]
      | ok region =>
        right
        obtain ⟨_, h2, h3⟩ := key srv p r v region ha hd hv
        exact ⟨region, h2, h3⟩
  · left
    obtain ⟨d, hd⟩ := serve_unauthorized srv p .geofiles r ha
    rw [hd]

/-- C8 at the request with body `{"region":"Russia"}`. -/
theorem C8_geofiles_arguments_witness :
    Authenticated exampleServer
      ⟨headerWith (goStr "secret"), goStr "\x7b\"region\":\"Russia\"\x7d"⟩ ∧
    Decode (goStr "region") (MaxBytesReader (goStr "\x7b\"region\":\"Russia\"\x7d") maxBodyBytes) =
      some (goStr "Russia") ∧
    geofilesRequest.validate (fun s => s) ⟨goStr "Russia"⟩ = .ok (goStr "russia") ∧
    goStr "russia" = ToLower (fun s => s) (goStr "Russia") ∧ goStr "russia" ∈ regions ∧
    (exampleServer.serve (platformReturning ⟨[], none⟩) .geofiles
        ⟨headerWith (goStr "secret"), goStr "\x7b\"region\":\"Russia\"\x7d"⟩).started =
      [⟨exampleServer.cfg.AppName, [goStr "geofiles", goStr "--" ++ goStr "russia"]⟩] :=
  ⟨⟨by decide, by decide⟩, by decide, by rfl,
   C8_geofiles_arguments.1 exampleServer (platformReturning ⟨[], none⟩)
     ⟨headerWith (goStr "secret"), goStr "\x7b\"region\":\"Russia\"\x7d"⟩ (goStr "Russia")
     (goStr "russia") ⟨by decide, by decide⟩ (by decide) (by rfl)⟩

/-- C9, refuted as stated: the output of `cleanANSI` on `ESC [ ESC [ m m` is
the CSI sequence `ESC [ m`, and when the failing program writes that text to
standard error the detail of the 404 response of core-update contains the
sequence. -/
theorem C9_sequence_survives :
    ContainsCSI (cleanANSI nestedCSI) ∧
    exampleServer.serve (platformReturning ⟨nestedCSI, some (.exitError 1)⟩) .coreUpdate
        ⟨headerWith (goStr "secret"), goStr "\x7b\"core_version\":\"v2.0.1\"\x7d"⟩ =
      ⟨[⟨404, [(goStr "detail", goStr "core-update failed for version v2.0.1: \x1b[m")]⟩],
       [⟨goStr "pg-node", [goStr "core-update", goStr "--version", goStr "v2.0.1"]⟩]⟩ ∧
    ContainsCSI (goStr "core-update failed for version v2.0.1: \x1b[m") := by
  refine ⟨?_, by decide!, ?_⟩
  · have h : cleanANSI nestedCSI = goStr "\x1b[m" := by decide
    rw [h]
    exact ⟨[], goStr "\x1b[m", [], ⟨[], by simp, by rfl⟩, by rfl⟩
  · exact ⟨goStr "core-update failed for version v2.0.1: ", goStr "\x1b[m", [],
      ⟨[], by simp, by rfl⟩, by rfl⟩

/-- Stripping adds no byte. -/
theorem mem_of_mem_cleanANSI (c : UInt8) (s : GoString) : c ∈ cleanANSI s → c ∈ s := by
  induction s using cleanANSI_induction with
  | hnil => rw [cleanANSI_nil]; exact id
  | hdrop m rest hm ih =>
    rw [cleanANSI_csi_append m rest hm]
    exact fun h => List.mem_append_right _ (ih h)
  | hkeep d t hl ih =>
    rw [cleanANSI_cons_of_none d t hl]
    intro h
    rcases List.mem_cons.1 h with h | h
    · exact h ▸ List.mem_cons_self _ _
    · exact List.mem_cons_of_mem _ (ih h)

/-- The response of core-update to an authenticated request with a valid
version when the program succeeds. -/
theorem serve_coreUpdate_succeeded (srv : server) (p : Platform) (r : Request) (v : GoString)
    (ha : Authenticated srv r)
    (hd : Decode (goStr "core_version") (MaxBytesReader r.Body maxBodyBytes) = some v)
    (hv : coreUpdateRequest.validate ⟨v⟩ = .ok ())
    (he : (p.host ⟨srv.cfg.AppName, [goStr "core-update", goStr "--version", v]⟩).err = none) :
    srv.serve p .coreUpdate r =
      ⟨[⟨200, [(goStr "detail", goStr "node core updated successfully")]⟩],
       [⟨srv.cfg.AppName, [goStr "core-update", goStr "--version", v]⟩]⟩ := by
  simp only [server.serve]
  rw [handleCoreUpdate_accepted srv p Exchange.new r v ha hd hv]
  simp [he, server.respond, Exchange.new]

/-- The response of core-update to an authenticated request with a valid
version when the program fails with standard error `E`, as a reader of the
response finds it. -/
theorem serve_coreUpdate_failed (srv : server) (p : Platform) (r : Request) (v E : GoString)
    (e : RunError) (ha : Authenticated srv r)
    (hd : Decode (goStr "core_version") (MaxBytesReader r.Body maxBodyBytes) = some v)
    (hv : coreUpdateRequest.validate ⟨v⟩ = .ok ())
    (he : p.host ⟨srv.cfg.AppName, [goStr "core-update", goStr "--version", v]⟩ = ⟨E, some e⟩) :
    srv.serve p .coreUpdate r =
      ⟨[⟨404, [(goStr "detail",
          if cleanANSI E ≠ [] then
            goStr "core-update failed for version " ++ v ++ goStr ": "
              ++ encodedText (cleanANSI E)
          else
            goStr "core-update failed for version " ++ v
              ++ goStr ". Version may not exist or network error occurred.")]⟩],
       [⟨srv.cfg.AppName, [goStr "core-update", goStr "--version", v]⟩]⟩ := by
  have hva := isCoreVersion_ascii v ((coreVersion_validate_iff v).1 hv)
  have h1 : ∀ c ∈ goStr "core-update failed for version ", c < 0x80 := by decide
  have h2 : ∀ c ∈ goStr ": ", c < 0x80 := by decide
  have h3 : ∀ c ∈ goStr ". Version may not exist or network error occurred.", c < 0x80 := by
    decide
  have ha1 : ∀ c ∈ goStr "core-update failed for version " ++ v ++ goStr ": ", c < 0x80 := by
    intro c hc
    rcases List.mem_append.1 hc with hc | hc
    · rcases List.mem_append.1 hc with hc | hc
      · exact h1 c hc
      · exact hva c hc
    · exact h2 c hc
  have ha2 : ∀ c ∈ goStr "core-update failed for version " ++ v
      ++ goStr ". Version may not exist or network error occurred.", c < 0x80 := by
    intro c hc
    rcases List.mem_append.1 hc with hc | hc
    · rcases List.mem_append.1 hc with hc | hc
      · exact h1 c hc
      · exact hva c hc
    · exact h3 c hc
  simp only [server.serve]
  rw [handleCoreUpdate_accepted srv p Exchange.new r v ha hd hv]
  by_cases hc : cleanANSI E = []
  · simp only [he, hc, server.respond, Exchange.new, encodeObject_singleton, enc_detail,
      encodedText_of_ascii _ ha2]
    simp
  · simp only [he, hc, server.respond, Exchange.new, encodeObject_singleton, enc_detail,
      encodedText_ascii_append _ _ ha1]
    simp [hc]


/-- The 404 responses of core-update: the program was started once for a valid
version, it failed, and the detail is the one built from its standard error. -/
theorem serve_coreUpdate_notFound (srv : server) (p : Platform) (r : Request) (d : GoString)
    (started : List Invocation)
    (h : srv.serve p .coreUpdate r = ⟨[⟨404, [(goStr "detail", d)]⟩], started⟩) :
    ∃ v : GoString, (0x1b : UInt8) ∉ v ∧
      started = [⟨srv.cfg.AppName, [goStr "core-update", goStr "--version", v]⟩] ∧
      d = if cleanANSI
              (p.host ⟨srv.cfg.AppName, [goStr "core-update", goStr "--version", v]⟩).stderr ≠ []
          then
            goStr "core-update failed for version " ++ v ++ goStr ": " ++ encodedText (cleanANSI
              (p.host ⟨srv.cfg.AppName, [goStr "core-update", goStr "--version", v]⟩).stderr)
          else
            goStr "core-update failed for version " ++ v
              ++ goStr ". Version may not exist or network error occurred." := by
  by_cases ha : Authenticated srv r
  · cases hd : Decode (goStr "core_version") (MaxBytesReader r.Body maxBodyBytes) with
    | none =>
      simp only [server.serve] at h
      rw [handleCoreUpdate_decode_none srv p _ r ha hd] at h
      simp [server.respond, Exchange.new] at h
    | some v =>
      cases hv : coreUpdateRequest.validate ⟨v⟩ with
      | error e =>
        simp only [server.serve] at h
        rw [handleCoreUpdate_rejected srv p _ r v e ha hd hv] at h
        simp [server.respond, Exchange.new] at h
      | ok u =>
        cases he : (p.host ⟨srv.cfg.AppName, [goStr "core-update", goStr "--version", v]⟩).err with
        | none =>
          rw [serve_coreUpdate_succeeded srv p r v ha hd hv he] at h
          simp at h
        | some e =>
          have he2 : p.host ⟨srv.cfg.AppName, [goStr "core-update", goStr "--version", v]⟩ =
              ⟨(p.host ⟨srv.cfg.AppName, [goStr "core-update", goStr "--version", v]⟩).stderr,
                some e⟩ := by
            rw [← he]
          rw [serve_coreUpdate_failed srv p r v _ e ha hd hv he2] at h
          simp only [Exchange.mk.injEq, List.cons.injEq, Response.mk.injEq, Prod.mk.injEq,
            and_true, true_and] at h
          exact ⟨v, no_esc_of_isCoreVersion v ((coreVersion_validate_iff v).1 hv), h.2.symm,
            h.1.symm⟩
  · obtain ⟨d2, hd2⟩ := serve_unauthorized srv p .coreUpdate r ha
    rw [hd2] at h
    simp at h

/-- The detail of a 404 response of core-update has a CSI sequence exactly when
the stripped standard error of the program has one. -/
theorem containsCSI_detail_iff (v E : GoString) (hv : (0x1b : UInt8) ∉ v) :
    ContainsCSI (if cleanANSI E ≠ [] then
        goStr "core-update failed for version " ++ v ++ goStr ": " ++ encodedText (cleanANSI E)
      else
        goStr "core-update failed for version " ++ v
          ++ goStr ". Version may not exist or network error occurred.") ↔
    ContainsCSI (cleanANSI E) := by
  have h1 : (0x1b : UInt8) ∉ goStr "core-update failed for version " := by decide
  have h2 : (0x1b : UInt8) ∉ goStr ": " := by decide
  have h3 : (0x1b : UInt8) ∉ goStr ". Version may not exist or network error occurred." := by
    decide
  by_cases hc : cleanANSI E = []
  · simp only [hc, ne_eq, not_true_eq_false, if_false]
    constructor
    · intro h
      exact absurd h (not_containsCSI_of_no_esc _ (by simp [h1, hv, h3]))
    · intro h
      exact absurd h (not_containsCSI_of_no_esc _ (by simp))
  · simp only [hc, ne_eq, not_false_eq_true, if_true]
    rw [containsCSI_append_iff _ _ (by simp [h1, hv, h2]), containsCSI_encodedText]

/-- C5, refuted as stated: when the failing program writes `bad `, the byte
`0xff` and ` byte` to standard error, `cleanANSI` leaves that text as it is,
and the detail of the 404 response is "core-update failed for version
v2.0.1: bad " followed by U+FFFD (the bytes `ef bf bd`) and " byte": the JSON
encoder has replaced the byte `0xff`, so the detail is not the prefix followed
by `cleanANSI E`. -/
theorem C5_invalid_utf8_replaced :
    Authenticated exampleServer
      ⟨headerWith (goStr "secret"), goStr "\x7b\"core_version\":\"v2.0.1\"\x7d"⟩ ∧
    Decode (goStr "core_version")
      (MaxBytesReader (goStr "\x7b\"core_version\":\"v2.0.1\"\x7d") maxBodyBytes) =
        some (goStr "v2.0.1") ∧
    coreUpdateRequest.validate ⟨goStr "v2.0.1"⟩ = .ok () ∧
    cleanANSI invalidUTF8Text = invalidUTF8Text ∧
    invalidUTF8Text ≠ [] ∧
    exampleServer.serve (platformReturning ⟨invalidUTF8Text, some (.exitError 1)⟩) .coreUpdate
        ⟨headerWith (goStr "secret"), goStr "\x7b\"core_version\":\"v2.0.1\"\x7d"⟩ =
      ⟨[⟨404, [(goStr "detail",
          goStr "core-update failed for version v2.0.1: bad " ++ [0xef, 0xbf, 0xbd]
            ++ goStr " byte")]⟩],
       [⟨goStr "pg-node", [goStr "core-update", goStr "--version", goStr "v2.0.1"]⟩]⟩ ∧
    exampleServer.serve (platformReturning ⟨invalidUTF8Text, some (.exitError 1)⟩) .coreUpdate
        ⟨headerWith (goStr "secret"), goStr "\x7b\"core_version\":\"v2.0.1\"\x7d"⟩ ≠
      ⟨[⟨404, [(goStr "detail",
          goStr "core-update failed for version " ++ goStr "v2.0.1" ++ goStr ": "
            ++ cleanANSI invalidUTF8Text)]⟩],
       [⟨goStr "pg-node", [goStr "core-update", goStr "--version", goStr "v2.0.1"]⟩]⟩ :=
  ⟨⟨by decide, by decide⟩, by decide, by rfl, by decide, by decide, by decide!, by decide!⟩

/-- C5, amended: for an authenticated `POST /node/core_update` whose body
decodes to a valid version `v`, the program is started once as
`<AppName> core-update --version v`; if it succeeds the response is 200 with
detail "node core updated successfully"; if it fails with standard error `E`
the response is 404, and the detail a reader of the response finds is
"core-update failed for version v: " followed by `encodedText (cleanANSI E)`,
the stripped text with U+FFFD in place of each byte that is not part of a
valid UTF-8 encoding, when `cleanANSI E` is not empty, and the generic
"core-update failed for version v. Version may not exist or network error
occurred." otherwise. The detail is the prefix followed by `cleanANSI E`
itself exactly when the encoder leaves `cleanANSI E` unchanged, in particular
when `E` is ASCII. For `v2.0.1`, exit code 1 and standard error
`ESC[31mversion not foundESC[0m` the detail is "core-update failed for
version v2.0.1: version not found". -/
theorem C5_core_update_outcome_encoded :
    (∀ (srv : server) (p : Platform) (r : Request) (v : GoString),
      Authenticated srv r →
      Decode (goStr "core_version") (MaxBytesReader r.Body maxBodyBytes) = some v →
      coreUpdateRequest.validate ⟨v⟩ = .ok () →
      ((p.host ⟨srv.cfg.AppName, [goStr "core-update", goStr "--version", v]⟩).err = none →
        srv.serve p .coreUpdate r =
          ⟨[⟨200, [(goStr "detail", goStr "node core updated successfully")]⟩],
           [⟨srv.cfg.AppName, [goStr "core-update", goStr "--version", v]⟩]⟩) ∧
      (∀ (E : GoString) (e : RunError),
        p.host ⟨srv.cfg.AppName, [goStr "core-update", goStr "--version", v]⟩ = ⟨E, some e⟩ →
        srv.serve p .coreUpdate r =
          ⟨[⟨404, [(goStr "detail",
              if cleanANSI E ≠ [] then
                goStr "core-update failed for version " ++ v ++ goStr ": "
                  ++ encodedText (cleanANSI E)
              else
                goStr "core-update failed for version " ++ v
                  ++ goStr ". Version may not exist or network error occurred.")]⟩],
           [⟨srv.cfg.AppName, [goStr "core-update", goStr "--version", v]⟩]⟩ ∧
        (srv.serve p .coreUpdate r =
          ⟨[⟨404, [(goStr "detail",
              if cleanANSI E ≠ [] then
                goStr "core-update failed for version " ++ v ++ goStr ": " ++ cleanANSI E
              else
                goStr "core-update failed for version " ++ v
                  ++ goStr ". Version may not exist or network error occurred.")]⟩],
           [⟨srv.cfg.AppName, [goStr "core-update", goStr "--version", v]⟩]⟩ ↔
          encodedText (cleanANSI E) = cleanANSI E) ∧
        ((∀ c ∈ E, c < 0x80) →
          srv.serve p .coreUpdate r =
            ⟨[⟨404, [(goStr "detail",
                if cleanANSI E ≠ [] then
                  goStr "core-update failed for version " ++ v ++ goStr ": " ++ cleanANSI E
                else
                  goStr "core-update failed for version " ++ v
                    ++ goStr ". Version may not exist or network error occurred.")]⟩],
             [⟨srv.cfg.AppName, [goStr "core-update", goStr "--version", v]⟩]⟩))) ∧
    exampleServer.serve
        (platformReturning ⟨goStr "\x1b[31mversion not found\x1b[0m", some (.exitError 1)⟩)
        .coreUpdate ⟨headerWith (goStr "secret"), goStr "\x7b\"core_version\":\"v2.0.1\"\x7d"⟩ =
      ⟨[⟨404, [(goStr "detail",
          goStr "core-update failed for version v2.0.1: version not found")]⟩],
       [⟨goStr "pg-node", [goStr "core-update", goStr "--version", goStr "v2.0.1"]⟩]⟩ ∧
    exampleServer.serve (platformReturning ⟨[], none⟩)
        .coreUpdate ⟨headerWith (goStr "secret"), goStr "\x7b\"core_version\":\"v2.0.1\"\x7d"⟩ =
      ⟨[⟨200, [(goStr "detail", goStr "node core updated successfully")]⟩],
       [⟨goStr "pg-node", [goStr "core-update", goStr "--version", goStr "v2.0.1"]⟩]⟩ := by
  refine ⟨?_, by decide!, by decide!⟩
  intro srv p r v ha hd hv
  refine ⟨serve_coreUpdate_succeeded srv p r v ha hd hv, ?_⟩
  intro E e he
  have hserve := serve_coreUpdate_failed srv p r v E e ha hd hv he
  have hiff : srv.serve p .coreUpdate r =
      ⟨[⟨404, [(goStr "detail",
          if cleanANSI E ≠ [] then
            goStr "core-update failed for version " ++ v ++ goStr ": " ++ cleanANSI E
          else
            goStr "core-update failed for version " ++ v
              ++ goStr ". Version may not exist or network error occurred.")]⟩],
       [⟨srv.cfg.AppName, [goStr "core-update", goStr "--version", v]⟩]⟩ ↔
      encodedText (cleanANSI E) = cleanANSI E := by
    rw [hserve]
    by_cases hc : cleanANSI E = []
    · simp only [hc, ne_eq, not_true_eq_false, if_false, true_iff]
      rfl
    · simp only [hc, ne_eq, not_false_eq_true, if_true, Exchange.mk.injEq, List.cons.injEq,
        Response.mk.injEq, Prod.mk.injEq, and_true, true_and, List.append_cancel_left_eq]
  refine ⟨hserve, hiff, ?_⟩
  intro hE
  exact hiff.2 (encodedText_of_ascii _ (fun c hc => hE c (mem_of_mem_cleanANSI c E hc)))

/-- C5 amended, at the request of the scenario: on a host where the program
fails with exit code 1 and coloured standard error, and on one where it
succeeds. -/
theorem C5_core_update_outcome_encoded_witness :
    Authenticated exampleServer
      ⟨headerWith (goStr "secret"), goStr "\x7b\"core_version\":\"v2.0.1\"\x7d"⟩ ∧
    Decode (goStr "core_version")
      (MaxBytesReader (goStr "\x7b\"core_version\":\"v2.0.1\"\x7d") maxBodyBytes) =
        some (goStr "v2.0.1") ∧
    coreUpdateRequest.validate ⟨goStr "v2.0.1"⟩ = .ok () ∧
    (∀ c ∈ goStr "\x1b[31mversion not found\x1b[0m", c < 0x80) ∧
    exampleServer.serve
        (platformReturning ⟨goStr "\x1b[31mversion not found\x1b[0m", some (.exitError 1)⟩)
        .coreUpdate ⟨headerWith (goStr "secret"), goStr "\x7b\"core_version\":\"v2.0.1\"\x7d"⟩ =
      ⟨[⟨404, [(goStr "detail",
          if cleanANSI (goStr "\x1b[31mversion not found\x1b[0m") ≠ [] then
            goStr "core-update failed for version " ++ goStr "v2.0.1" ++ goStr ": "
              ++ cleanANSI (goStr "\x1b[31mversion not found\x1b[0m")
          else
            goStr "core-update failed for version " ++ goStr "v2.0.1"
              ++ goStr ". Version may not exist or network error occurred.")]⟩],
       [⟨exampleServer.cfg.AppName, [goStr "core-update", goStr "--version", goStr "v2.0.1"]⟩]⟩ ∧
    exampleServer.serve (platformReturning ⟨invalidUTF8Text, some (.exitError 1)⟩)
        .coreUpdate ⟨headerWith (goStr "secret"), goStr "\x7b\"core_version\":\"v2.0.1\"\x7d"⟩ =
      ⟨[⟨404, [(goStr "detail",
          if cleanANSI invalidUTF8Text ≠ [] then
            goStr "core-update failed for version " ++ goStr "v2.0.1" ++ goStr ": "
              ++ encodedText (cleanANSI invalidUTF8Text)
          else
            goStr "core-update failed for version " ++ goStr "v2.0.1"
              ++ goStr ". Version may not exist or network error occurred.")]⟩],
       [⟨exampleServer.cfg.AppName, [goStr "core-update", goStr "--version", goStr "v2.0.1"]⟩]⟩ ∧
    exampleServer.serve (platformReturning ⟨[], none⟩)
        .coreUpdate ⟨headerWith (goStr "secret"), goStr "\x7b\"core_version\":\"v2.0.1\"\x7d"⟩ =
      ⟨[⟨200, [(goStr "detail", goStr "node core updated successfully")]⟩],
       [⟨exampleServer.cfg.AppName, [goStr "core-update", goStr "--version", goStr "v2.0.1"]⟩]⟩ :=
  ⟨⟨by decide, by decide⟩, by decide, by rfl, by decide,
   ((C5_core_update_outcome_encoded.1 exampleServer
     (platformReturning ⟨goStr "\x1b[31mversion not found\x1b[0m", some (.exitError 1)⟩)
     ⟨headerWith (goStr "secret"), goStr "\x7b\"core_version\":\"v2.0.1\"\x7d"⟩ (goStr "v2.0.1")
     ⟨by decide, by decide⟩ (by decide) (by rfl)).2
     (goStr "\x1b[31mversion not found\x1b[0m") (.exitError 1) rfl).2.2 (by decide),
   ((C5_core_update_outcome_encoded.1 exampleServer
     (platformReturning ⟨invalidUTF8Text, some (.exitError 1)⟩)
     ⟨headerWith (goStr "secret"), goStr "\x7b\"core_version\":\"v2.0.1\"\x7d"⟩ (goStr "v2.0.1")
     ⟨by decide, by decide⟩ (by decide) (by rfl)).2
     invalidUTF8Text (.exitError 1) rfl).1,
   (C5_core_update_outcome_encoded.1 exampleServer (platformReturning ⟨[], none⟩)
     ⟨headerWith (goStr "secret"), goStr "\x7b\"core_version\":\"v2.0.1\"\x7d"⟩ (goStr "v2.0.1")
     ⟨by decide, by decide⟩ (by decide) (by rfl)).1 rfl⟩

/-- One pass of `cleanANSI` leaves the CSI sequence `ESC [ m` of the text
`ESC [ ESC [ m m`. -/
theorem containsCSI_cleanANSI_nestedCSI : ContainsCSI (cleanANSI nestedCSI) := by
  have h : cleanANSI nestedCSI = goStr "\x1b[m" := by decide
  rw [h]
  exact ⟨[], goStr "\x1b[m", [], ⟨[], by simp, by rfl⟩, by rfl⟩

/-- C9, amended: one pass of `cleanANSI` leaves a CSI sequence exactly in the
texts that contain a split CSI sequence (the beginning of a CSI sequence,
directly followed by a complete CSI sequence, then the rest of the first one,
possibly with further CSI sequences inserted); in particular it leaves none in
a text without an unterminated opener (`ESC`, or `ESC [` and digits and `;`)
directly followed by an `ESC` byte. Consequently the detail of a core-update
404 response contains a CSI sequence exactly when the standard error of the
program started for that request contains a split CSI sequence, and none when
that standard error has no unterminated opener directly followed by `ESC`. -/
theorem C9_surviving_sequences :
    (∀ s : GoString, ContainsCSI (cleanANSI s) ↔ ContainsSplitCSI s) ∧
    (∀ s : GoString, ¬ OpenerBeforeEsc s → ¬ ContainsCSI (cleanANSI s)) ∧
    (∀ (srv : server) (p : Platform) (r : Request) (d : GoString) (started : List Invocation),
      srv.serve p .coreUpdate r = ⟨[⟨404, [(goStr "detail", d)]⟩], started⟩ →
      (ContainsCSI d ↔ ∃ inv ∈ started, ContainsSplitCSI (p.host inv).stderr) ∧
      ((∀ inv ∈ started, ¬ OpenerBeforeEsc (p.host inv).stderr) → ¬ ContainsCSI d)) := by
  refine ⟨containsCSI_cleanANSI_iff, ?_, ?_⟩
  · intro s h hc
    exact h (openerBeforeEsc_of_split s ((containsCSI_cleanANSI_iff s).1 hc))
  · intro srv p r d started hserve
    obtain ⟨v, hv, rfl, rfl⟩ := serve_coreUpdate_notFound srv p r d started hserve
    have hiff := (containsCSI_detail_iff v _ hv).trans (containsCSI_cleanANSI_iff
      (p.host ⟨srv.cfg.AppName, [goStr "core-update", goStr "--version", v]⟩).stderr)
    constructor
    · rw [hiff]
      simp
    · intro hno hc
      exact hno _ (List.mem_singleton_self _) (openerBeforeEsc_of_split _ (hiff.1 hc))

/-- C9 amended, at the text `ESC [ ESC [ m m`, which contains a split CSI
sequence, at the text `warn` followed by a lone `ESC`, and at the
core-update request of the scenario on a host where the program fails with
`ESC[2Kdownload failed` and a lone `ESC` on standard error: neither text has
an unterminated opener directly followed by `ESC`. -/
theorem C9_surviving_sequences_witness :
    ContainsSplitCSI nestedCSI ∧
    ¬ OpenerBeforeEsc (goStr "warn\x1b") ∧
    ¬ ContainsCSI (cleanANSI (goStr "warn\x1b")) ∧
    ¬ OpenerBeforeEsc clearLineText ∧
    exampleServer.serve (platformReturning ⟨clearLineText, some (.exitError 1)⟩) .coreUpdate
        ⟨headerWith (goStr "secret"), goStr "\x7b\"core_version\":\"v2.0.1\"\x7d"⟩ =
      ⟨[⟨404, [(goStr "detail",
          goStr "core-update failed for version v2.0.1: \x1b[2Kdownload failed\x1b")]⟩],
       [⟨goStr "pg-node", [goStr "core-update", goStr "--version", goStr "v2.0.1"]⟩]⟩ ∧
    ¬ ContainsCSI (goStr "core-update failed for version v2.0.1: \x1b[2Kdownload failed\x1b") :=
  ⟨(C9_surviving_sequences.1 nestedCSI).1 containsCSI_cleanANSI_nestedCSI,
   not_openerBeforeEsc _ (by decide),
   C9_surviving_sequences.2.1 (goStr "warn\x1b") (not_openerBeforeEsc _ (by decide)),
   not_openerBeforeEsc _ (by decide),
   (by decide!),
   (C9_surviving_sequences.2.2 exampleServer
     (platformReturning ⟨clearLineText, some (.exitError 1)⟩)
     ⟨headerWith (goStr "secret"), goStr "\x7b\"core_version\":\"v2.0.1\"\x7d"⟩
     (goStr "core-update failed for version v2.0.1: \x1b[2Kdownload failed\x1b")
     [⟨goStr "pg-node", [goStr "core-update", goStr "--version", goStr "v2.0.1"]⟩]
     (by decide!)).2
     (fun _ _ => show ¬ OpenerBeforeEsc clearLineText from not_openerBeforeEsc _ (by decide))⟩

/-- C10: `cleanANSI` is the identity on every text without a CSI sequence, in
particular on every text without an `ESC` byte; and in general its output is
the input with its CSI sequences deleted, every other byte kept in order:
`Stripped s out` holds for `out = cleanANSI s` and for no other `out`. -/
theorem C10_strip_only_sequences :
    (∀ s : GoString, ¬ ContainsCSI s → cleanANSI s = s) ∧
    (∀ s : GoString, (0x1b : UInt8) ∉ s → cleanANSI s = s) ∧
    (∀ s : GoString, Stripped s (cleanANSI s)) ∧
    (∀ s out : GoString, Stripped s out → out = cleanANSI s) := by
  refine ⟨cleanANSI_of_not_containsCSI, ?_, cleanANSI_stripped, stripped_unique⟩
  intro s h
  exact cleanANSI_of_not_containsCSI s (not_containsCSI_of_no_esc s h)

/-- C10 at the text `version not found`. -/
theorem C10_strip_only_sequences_witness :
    (0x1b : UInt8) ∉ goStr "version not found" ∧
    cleanANSI (goStr "version not found") = goStr "version not found" ∧
    ¬ ContainsCSI (goStr "ESC is \x1b, and \x1b[2K clears a line") ∧
    cleanANSI (goStr "ESC is \x1b, and \x1b[2K clears a line") =
      goStr "ESC is \x1b, and \x1b[2K clears a line" ∧
    Stripped (goStr "\x1b[1mbold\x1b[0m") (goStr "bold") ∧
    goStr "bold" = cleanANSI (goStr "\x1b[1mbold\x1b[0m") :=
  ⟨by decide, C10_strip_only_sequences.2.1 (goStr "version not found") (by decide),
   (cleanANSI_fixed_iff _).1 (by decide),
   C10_strip_only_sequences.1 (goStr "ESC is \x1b, and \x1b[2K clears a line")
     ((cleanANSI_fixed_iff _).1 (by decide)),
   (by
     have h := C10_strip_only_sequences.2.2.1 (goStr "\x1b[1mbold\x1b[0m")
     have e : cleanANSI (goStr "\x1b[1mbold\x1b[0m") = goStr "bold" := by decide
     rw [e] at h
     exact h),
   C10_strip_only_sequences.2.2.2 (goStr "\x1b[1mbold\x1b[0m") (goStr "bold")
     (by
       have h := cleanANSI_stripped (goStr "\x1b[1mbold\x1b[0m")
       have e : cleanANSI (goStr "\x1b[1mbold\x1b[0m") = goStr "bold" := by decide
       rw [e] at h
       exact h)⟩

end NodeServiced
